import Mathlib

/-!
Verification of the TrustDoc (TDF) core trust pipeline against its
natural-language specification.

The development shallowly embeds the Rust sources of `tdf-core`
(merkle.rs, signature.rs, revocation.rs, multiparty.rs, config.rs,
document.rs, archive.rs, timestamp.rs, crypto_utils.rs) into Lean.

Modelling conventions, used throughout:

* Rust `Vec<u8>` and `String` are both modelled as `List Nat` of byte
  values; Rust string comparison (`Ord` on `String`/`Vec<u8>`) is
  byte-lexicographic, modelled by `leBytes`.
* `chrono::DateTime<Utc>` is modelled as an `Int` of seconds since the
  epoch; `Utc::now()` becomes an explicit `now : Int` argument.
* Machine integers (`u64`/`usize`) are `Nat` with explicit `2^64`
  bounds where the source uses checked arithmetic.
* Fallible Rust functions returning `TdfResult<T>` become
  `Except TdfError T`.
* External crates (sha2/sha3/blake3/hmac, ed25519_dalek, k256,
  serde_cbor/ciborium/serde_json, base64, chrono's RFC 3339 renderer)
  are not part of this repository's sources; they are modelled by the
  `SigPrims` bundle of abstract primitive functions and by concrete
  injective stand-in codecs, as documented at each definition.
  Theorems that depend on properties of the primitives state those
  properties as explicit hypotheses, and the `demoPrims` instance
  discharges them in witnesses.
-/

/-- Byte strings: Rust `Vec<u8>` (and `String`, as its UTF-8 bytes). -/
abbrev Bytes := List Nat

/-- ASCII string literal to byte values; used only for constants that
are plain ASCII in the source (domain separators, file names, keys). -/
def ascii (s : String) : Bytes :=
  s.data.map (fun c => c.toNat)

/-- Byte-lexicographic order, the order `Ord` gives Rust `Vec<u8>` and
`String`: this is the order `hashes.sort()` and `sort_by(signer_id)`
use. -/
def leBytes : Bytes → Bytes → Bool
  | [], _ => true
  | _ :: _, [] => false
  | a :: as, b :: bs => if a < b then true else if a = b then leBytes as bs else false

/-- Strict byte-lexicographic comparison. -/
def ltBytes (a b : Bytes) : Bool :=
  leBytes a b && !(leBytes b a)

/-- `hashes.sort()` on byte strings.  Rust's `sort` is a stable sort
by the total preorder `leBytes`; any two stable sorts by the same
preorder agree, so it is modelled by stable insertion sort (which the
kernel can evaluate). -/
def sortBytes (l : List Bytes) : List Bytes :=
  l.insertionSort (fun a b => leBytes a b)

/-- Stable sort by a byte-string key, matching Rust
`sort_by(|a, b| key(a).cmp(&key(b)))`. -/
def sortByKey {α : Type} (key : α → Bytes) (l : List α) : List α :=
  l.insertionSort (fun a b => leBytes (key a) (key b))

/-! ## Error kinds (error.rs `TdfError`)

Message payloads are elided: the sources build them with `format!` for
human consumption and no control flow inspects them. -/

inductive TdfError : Type
  | ioError
  | cborError
  | jsonError
  | zipError
  | invalidDocument
  | integrityFailure
  | signatureFailure
  | unsupportedHashAlgorithm
  | unsupportedSignatureAlgorithm
  | missingFile
  | fileSizeExceeded
  | invalidContentType
  | verificationFailed
  | signatureRequired
  | untrustedSigner
  | revokedKey
  | sizeExceeded
  | readLimitExceeded
  | invalidPath
  | policyViolation
  | rootHashMismatch
  | timestampError
  | integerOverflow
  | parseError
  | depthLimitExceeded
  deriving DecidableEq, Repr

/-- Decidable equality for `Except` results. -/
instance {ε α : Type} [DecidableEq ε] [DecidableEq α] : DecidableEq (Except ε α) :=
  fun a b =>
    match a, b with
    | .error e1, .error e2 =>
      if h : e1 = e2 then isTrue (by rw [h]) else isFalse (by intro hc; cases hc; exact h rfl)
    | .ok v1, .ok v2 =>
      if h : v1 = v2 then isTrue (by rw [h]) else isFalse (by intro hc; cases hc; exact h rfl)
    | .error _, .ok _ => isFalse (by intro hc; cases hc)
    | .ok _, .error _ => isFalse (by intro hc; cases hc)

/-! ## Stand-in codec toolkit

Modelled from the spec: the container stores "CBOR-encoded" components
(serde_cbor / ciborium) and a "JSON sidecar" (serde_json); those crates
are external to this repository.  The pipeline relies only on the
encodings being deterministic functions of the value with faithful
decoders (for plain field structs serde_cbor is deterministic: struct
fields are emitted in declaration order).  They are modelled by the
following injective, self-delimiting, length-prefixed byte encoding. -/

/-- Little-endian base-255 digits, driven by a fuel argument so that
the kernel can evaluate it (`fuel ≥ n` always suffices). -/
def dig255 : Nat → Nat → List Nat
  | _, 0 => []
  | 0, _ + 1 => []
  | fuel + 1, m + 1 => (m + 1) % 255 :: dig255 fuel ((m + 1) / 255)

/-- Encode a natural number: base-255 digits terminated by byte 255. -/
def encNat (n : Nat) : Bytes :=
  dig255 n n ++ [255]

/-- Read base-255 digits up to the 255 terminator. -/
def decNatAux : Bytes → Option (List Nat × Bytes)
  | [] => none
  | b :: bs =>
    if b = 255 then some ([], bs)
    else
      match decNatAux bs with
      | none => none
      | some (ds, r) => some (b :: ds, r)

/-- Decode a natural number encoded by `encNat`. -/
def decNat (bs : Bytes) : Option (Nat × Bytes) :=
  match decNatAux bs with
  | none => none
  | some (ds, r) => some (Nat.ofDigits 255 ds, r)

/-- Encode an integer (sign byte, then magnitude). -/
def encInt : Int → Bytes
  | Int.ofNat n => 0 :: encNat n
  | Int.negSucc n => 1 :: encNat n

/-- Decode an integer encoded by `encInt`. -/
def decInt : Bytes → Option (Int × Bytes)
  | 0 :: bs =>
    match decNat bs with
    | none => none
    | some (n, r) => some (Int.ofNat n, r)
  | 1 :: bs =>
    match decNat bs with
    | none => none
    | some (n, r) => some (Int.negSucc n, r)
  | _ => none

/-- Encode a byte string: length prefix, then the raw bytes. -/
def encStr (s : Bytes) : Bytes :=
  encNat s.length ++ s

/-- Decode a byte string encoded by `encStr`. -/
def decStr (bs : Bytes) : Option (Bytes × Bytes) :=
  match decNat bs with
  | none => none
  | some (n, r) => if n ≤ r.length then some (r.take n, r.drop n) else none

/-- Encode a boolean as one byte. -/
def encBool (b : Bool) : Bytes :=
  [if b then 1 else 0]

/-- Decode a boolean encoded by `encBool`. -/
def decBool : Bytes → Option (Bool × Bytes)
  | 0 :: r => some (false, r)
  | 1 :: r => some (true, r)
  | _ => none

/-- Encode an optional value (presence byte, then payload). -/
def encOption {α : Type} (enc : α → Bytes) : Option α → Bytes
  | none => [0]
  | some a => 1 :: enc a

/-- Decode an optional value encoded by `encOption`. -/
def decOption {α : Type} (dec : Bytes → Option (α × Bytes)) : Bytes → Option (Option α × Bytes)
  | 0 :: r => some (none, r)
  | 1 :: r =>
    match dec r with
    | none => none
    | some (a, r2) => some (some a, r2)
  | _ => none

/-- Encode a list (count prefix, then each element). -/
def encList {α : Type} (enc : α → Bytes) (xs : List α) : Bytes :=
  encNat xs.length ++ xs.foldr (fun x acc => enc x ++ acc) []

/-- Decode exactly `n` elements. -/
def decTimes {α : Type} (dec : Bytes → Option (α × Bytes)) : Nat → Bytes → Option (List α × Bytes)
  | 0, bs => some ([], bs)
  | n + 1, bs =>
    match dec bs with
    | none => none
    | some (a, r) =>
      match decTimes dec n r with
      | none => none
      | some (as, r2) => some (a :: as, r2)

/-- Decode a list encoded by `encList`. -/
def decList {α : Type} (dec : Bytes → Option (α × Bytes)) (bs : Bytes) : Option (List α × Bytes) :=
  match decNat bs with
  | none => none
  | some (n, r) => decTimes dec n r

/-- Encode a pair. -/
def encProd {α β : Type} (encA : α → Bytes) (encB : β → Bytes) (p : α × β) : Bytes :=
  encA p.1 ++ encB p.2

/-- Decode a pair encoded by `encProd`. -/
def decProd {α β : Type} (decA : Bytes → Option (α × Bytes)) (decB : Bytes → Option (β × Bytes))
    (bs : Bytes) : Option ((α × β) × Bytes) :=
  match decA bs with
  | none => none
  | some (a, r) =>
    match decB r with
    | none => none
    | some (b, r2) => some ((a, b), r2)

/-- A decoder faithfully inverts an encoder on any prefix. -/
def RoundTrip {α : Type} (enc : α → Bytes) (dec : Bytes → Option (α × Bytes)) : Prop :=
  ∀ (a : α) (rest : Bytes), dec (enc a ++ rest) = some (a, rest)

/-! ## Hex encoding (the `hex` crate, modelled exactly)

`hex::encode` emits two lowercase hex digits per byte. -/

/-- One hex digit (0-15) as its lowercase ASCII code. -/
def hexDigit (n : Nat) : Nat :=
  if n < 10 then 48 + n else 87 + n

/-- `hex::encode`: lowercase hex of each byte. -/
def hexEncode (bs : Bytes) : Bytes :=
  bs.foldr (fun b acc => hexDigit (b / 16) :: hexDigit (b % 16) :: acc) []

/-- Value of one ASCII hex digit. -/
def hexDigitVal (c : Nat) : Option Nat :=
  if 48 ≤ c ∧ c ≤ 57 then some (c - 48)
  else if 97 ≤ c ∧ c ≤ 102 then some (c - 87)
  else if 65 ≤ c ∧ c ≤ 70 then some (c - 55)
  else none

/-- `hex::decode`: fails on odd length or non-hex characters. -/
def hexDecode : Bytes → Option Bytes
  | [] => some []
  | [_] => none
  | c1 :: c2 :: rest =>
    match hexDigitVal c1, hexDigitVal c2, hexDecode rest with
    | some h, some l, some tail => some ((16 * h + l) :: tail)
    | _, _, _ => none

/-! ## Base64 stand-in

Modelled from the spec: signatures and proofs are "base64-encoded"
via the external `base64` crate.  The pipeline uses only that encoding
is injective and that decoding inverts it (and can fail on non-base64
input); the 6-bit packing details are irrelevant to every claim, so the
codec is modelled as a tagged identity. -/

/-- Stand-in for `base64::encode`. -/
def b64Encode (bs : Bytes) : Bytes :=
  98 :: bs

/-- Stand-in for `base64::decode`; fails unless the tag is present. -/
def b64Decode : Bytes → Option Bytes
  | 98 :: bs => some bs
  | _ => none

/-! ## Cryptographic primitives

Modelled from the spec: the hash functions (sha2/sha3/blake3/hmac
crates) and the Ed25519 / secp256k1 signature schemes (ed25519_dalek,
k256) are external to this repository.  They are modelled as a bundle
of abstract byte functions; theorems that need a property of a
primitive (determinism is free, injectivity or signature soundness is
not) take it as an explicit hypothesis, and `demoPrims` below is a
concrete instance discharging those hypotheses in witnesses. -/

structure SigPrims where
  /-- SHA-256 digest. -/
  sha256 : Bytes → Bytes
  /-- HMAC-SHA-256 under a given key (key, message). -/
  hmacSha256 : Bytes → Bytes → Bytes
  /-- SHA3-256 digest. -/
  sha3x256 : Bytes → Bytes
  /-- SHA3-512 digest truncated to 32 bytes. -/
  sha3x512trunc : Bytes → Bytes
  /-- BLAKE3 digest. -/
  blake3 : Bytes → Bytes
  /-- Ed25519 signing: signing-key bytes, message, to signature bytes. -/
  edSign : Bytes → Bytes → Bytes
  /-- Ed25519 verifying-key bytes of a signing key. -/
  edPub : Bytes → Bytes
  /-- Ed25519 verification: verifying-key bytes, message, signature bytes. -/
  edVerify : Bytes → Bytes → Bytes → Bool
  /-- secp256k1 signing (DER signature bytes). -/
  secpSign : Bytes → Bytes → Bytes
  /-- secp256k1 verifying key of a signing key. -/
  secpPub : Bytes → Bytes
  /-- secp256k1 verification. -/
  secpVerify : Bytes → Bytes → Bytes → Bool

/-- Completeness of the modelled Ed25519 scheme: an honestly produced
signature verifies under the signer's verifying key. -/
def EdComplete (P : SigPrims) : Prop :=
  ∀ (sk m : Bytes), P.edVerify (P.edPub sk) m (P.edSign sk m) = true

/-- Pad or truncate to exactly 64 bytes (Ed25519 signature width). -/
def padTo64 (bs : Bytes) : Bytes :=
  (bs ++ List.replicate 64 0).take 64

/-! ## Merkle engine (merkle.rs)

Constants and hashing exactly as in the source.  The three HMAC keys
are the source's ASCII literals; the one-byte domain separators are
prepended only in v2 mode (`use_domain_separators`). -/

inductive HashAlgorithm : Type
  | sha256
  | sha3of256
  | sha3of512
  | blake3
  deriving DecidableEq, Repr

/-- `HashAlgorithm::to_u8`. -/
def HashAlgorithm.to_u8 : HashAlgorithm → Nat
  | .sha256 => 0x01
  | .blake3 => 0x02
  | .sha3of256 => 0x03
  | .sha3of512 => 0x04

/-- `HashAlgorithm::from_u8`. -/
def HashAlgorithm.from_u8 : Nat → Except TdfError HashAlgorithm
  | 0x01 => .ok .sha256
  | 0x03 => .ok .sha3of256
  | 0x04 => .ok .sha3of512
  | 0x02 => .ok .blake3
  | _ => .error .unsupportedHashAlgorithm

def LEAF_DOMAIN_SEPARATOR : Nat := 0x00
def INTERNAL_DOMAIN_SEPARATOR : Nat := 0x01
def MAX_LEAF_COUNT : Nat := 1000000
def MERKLE_MAGIC : Bytes := ascii "TDFH"
def MERKLE_VERSION : Nat := 0x02
def MERKLE_VERSION_LEGACY : Nat := 0x01

/-- `MerkleTree::hash_leaf`: HMAC-SHA-256 under the leaf key for
sha256, plain domain-separated hashing for the SHA-3/BLAKE3 family;
the 0x00 separator is included only when `sep` (v2 mode) holds. -/
def hash_leaf (P : SigPrims) (alg : HashAlgorithm) (sep : Bool) (data : Bytes) : Bytes :=
  let prefixed := (if sep then [LEAF_DOMAIN_SEPARATOR] else []) ++ data
  match alg with
  | .sha256 => P.hmacSha256 (ascii "TDF-MERKLE-LEAF-KEY-2026") prefixed
  | .sha3of256 => P.sha3x256 prefixed
  | .sha3of512 => P.sha3x512trunc prefixed
  | .blake3 => P.blake3 prefixed

/-- `MerkleTree::hash_internal` on two child hashes. -/
def hash_internal (P : SigPrims) (alg : HashAlgorithm) (sep : Bool) (left right : Bytes) : Bytes :=
  let prefixed := (if sep then [INTERNAL_DOMAIN_SEPARATOR] else []) ++ left ++ right
  match alg with
  | .sha256 => P.hmacSha256 (ascii "TDF-MERKLE-INTERNAL-KEY-2026") prefixed
  | .sha3of256 => P.sha3x256 prefixed
  | .sha3of512 => P.sha3x512trunc prefixed
  | .blake3 => P.blake3 prefixed

/-- `MerkleTree::hash_single` (odd-level promotion; note SHA-256 uses a
distinct HMAC key while the SHA-3/BLAKE3 variants reuse the internal
separator). -/
def hash_single (P : SigPrims) (alg : HashAlgorithm) (sep : Bool) (data : Bytes) : Bytes :=
  let prefixed := (if sep then [INTERNAL_DOMAIN_SEPARATOR] else []) ++ data
  match alg with
  | .sha256 => P.hmacSha256 (ascii "TDF-MERKLE-SINGLE-KEY-2026") prefixed
  | .sha3of256 => P.sha3x256 prefixed
  | .sha3of512 => P.sha3x512trunc prefixed
  | .blake3 => P.blake3 prefixed

/-- One level of the tree reduction: `chunks(2)`, pairing adjacent
hashes and promoting a trailing odd element via `hash_single`. -/
def reduceLevel (P : SigPrims) (alg : HashAlgorithm) (sep : Bool) : List Bytes → List Bytes
  | [] => []
  | [x] => [hash_single P alg sep x]
  | x :: y :: rest => hash_internal P alg sep x y :: reduceLevel P alg sep rest

/-- The `while hashes.len() > 1` loop of `MerkleTree::build_tree`,
driven by a fuel argument (the level count never exceeds the initial
list length, so `hs.length` fuel always suffices). -/
def buildLoop (P : SigPrims) (alg : HashAlgorithm) (sep : Bool) : Nat → List Bytes → List Bytes
  | 0, hs => hs
  | fuel + 1, hs =>
    if hs.length ≤ 1 then hs
    else buildLoop P alg sep fuel (reduceLevel P alg sep hs)

/-- `MerkleTree::build_tree`: errors on an empty list, otherwise
reduces to a single root hash. -/
def build_tree (P : SigPrims) (alg : HashAlgorithm) (sep : Bool) (hashes : List Bytes) :
    Except TdfError Bytes :=
  if hashes.isEmpty then .error .invalidDocument
  else .ok ((buildLoop P alg sep hashes.length hashes).headD [])

/-- A component map entry: name to bytes.  Rust's `HashMap` iteration
order is arbitrary; the map is modelled as the association list in
whatever order iteration yields, and the theorems quantify over
reorderings. -/
abbrev ComponentMap := List (Bytes × Bytes)

/-- `HashMap::insert`: replaces the value at an existing key, else
appends. -/
def insertComp (m : ComponentMap) (k : Bytes) (v : Bytes) : ComponentMap :=
  if m.any (fun p => p.1 == k) then m.map (fun p => if p.1 == k then (k, v) else p)
  else m ++ [(k, v)]

/-- `MerkleTree::compute_root`: hash every component value as a leaf,
sort the leaf hashes, then build the tree.  Returns the sorted leaf
list together with the root (the source stores both on `self`). -/
def compute_root (P : SigPrims) (alg : HashAlgorithm) (sep : Bool) (components : ComponentMap) :
    Except TdfError (List Bytes × Bytes) :=
  let hashes := components.map (fun p => hash_leaf P alg sep p.2)
  let sorted := sortBytes hashes
  match build_tree P alg sep sorted with
  | .error e => .error e
  | .ok root => .ok (sorted, root)

/-- The in-memory Merkle tree (`MerkleTree` struct). -/
structure MerkleTree where
  algorithm : HashAlgorithm
  root_hash : Bytes
  leaf_hashes : List Bytes
  use_domain_separators : Bool
  deriving DecidableEq, Repr

/-- `crypto_utils::ct_eq`: constant-time byte equality; functionally,
equality of lengths and contents. -/
def ct_eq (a b : Bytes) : Bool :=
  if a.length ≠ b.length then false else a == b

/-- `MerkleTree::verify`: recompute the root over the components with
this tree's separator mode and compare with the stored root in
constant time. -/
def MerkleTree.verify (P : SigPrims) (t : MerkleTree) (components : ComponentMap) :
    Except TdfError Bool :=
  match compute_root P t.algorithm t.use_domain_separators components with
  | .error e => .error e
  | .ok (_, computed) => .ok (ct_eq computed t.root_hash)

/-- Big-endian 4-byte encoding of a `u32` (`to_be_bytes`). -/
def be32 (n : Nat) : Bytes :=
  [n / 2 ^ 24 % 256, n / 2 ^ 16 % 256, n / 2 ^ 8 % 256, n % 256]

/-- Big-endian 8-byte encoding of an `i64` (`to_be_bytes`, two's
complement). -/
def be64i (i : Int) : Bytes :=
  let n := (i % (2 ^ 64 : Int)).toNat
  [n / 2 ^ 56 % 256, n / 2 ^ 48 % 256, n / 2 ^ 40 % 256, n / 2 ^ 32 % 256,
   n / 2 ^ 24 % 256, n / 2 ^ 16 % 256, n / 2 ^ 8 % 256, n % 256]

/-- `MerkleTree::to_binary`: magic, version 2, algorithm tag, big-endian
leaf count, root hash, leaves. -/
def MerkleTree.to_binary (t : MerkleTree) : Except TdfError Bytes :=
  .ok (MERKLE_MAGIC ++ [MERKLE_VERSION, t.algorithm.to_u8]
    ++ be32 (t.leaf_hashes.length % 2 ^ 32)
    ++ t.root_hash ++ t.leaf_hashes.foldr (fun h acc => h ++ acc) [])

/-- `usize::checked_mul` on a 64-bit target. -/
def checked_mul (a b : Nat) : Option Nat :=
  if a * b < 2 ^ 64 then some (a * b) else none

/-- `usize::checked_add` on a 64-bit target. -/
def checked_add (a b : Nat) : Option Nat :=
  if a + b < 2 ^ 64 then some (a + b) else none

/-- Read the declared big-endian `u32` leaf count at offset 6. -/
def declaredLeafCount (data : Bytes) : Nat :=
  data.getD 6 0 * 2 ^ 24 + data.getD 7 0 * 2 ^ 16 + data.getD 8 0 * 2 ^ 8 + data.getD 9 0

/-- Split a flat byte list into `count` chunks of 32 bytes. -/
def takeChunks32 : Nat → Bytes → List Bytes
  | 0, _ => []
  | n + 1, bs => bs.take 32 :: takeChunks32 n (bs.drop 32)

/-- `MerkleTree::from_binary` (merkle.rs lines 321-420): magic and
length checks, version gate that accepts v1 with only a warning,
algorithm tag, `MAX_LEAF_COUNT` bound, checked size arithmetic,
truncation check, then the root and leaves. -/
def MerkleTree.from_binary (data : Bytes) : Except TdfError MerkleTree :=
  if data.length < 4 then .error .invalidDocument
  else if data.take 4 ≠ MERKLE_MAGIC then .error .invalidDocument
  else if data.length < 42 then .error .invalidDocument
  else
    let version := data.getD 4 0
    match
      (if version = MERKLE_VERSION_LEGACY then .ok false
       else if version = MERKLE_VERSION then .ok true
       else .error .invalidDocument : Except TdfError Bool) with
    | .error e => .error e
    | .ok use_domain_separators =>
      match HashAlgorithm.from_u8 (data.getD 5 0) with
      | .error e => .error e
      | .ok algorithm =>
        let count := declaredLeafCount data
        if count > MAX_LEAF_COUNT then .error .sizeExceeded
        else
          match checked_mul count 32 with
          | none => .error .integerOverflow
          | some leaves_size =>
            match checked_add 10 32 with
            | none => .error .integerOverflow
            | some hdr =>
              match checked_add hdr leaves_size with
              | none => .error .integerOverflow
              | some required_size =>
                if data.length < required_size then .error .invalidDocument
                else
                  .ok { algorithm
                        root_hash := (data.drop 10).take 32
                        leaf_hashes := takeChunks32 count (data.drop 42)
                        use_domain_separators }

/-! ## Timestamps (timestamp.rs)

`DateTime<Utc>` is the `Int` of epoch seconds.  The RFC 3339 rendering
lives in the external chrono crate; the pipeline uses only that it is
a fixed deterministic (and injective) rendering of the instant, so it
is modelled by a tagged stand-in encoding. -/

/-- Modelled from the spec: `DateTime::to_rfc3339` (chrono, external);
a deterministic injective rendering of the instant as bytes. -/
def rfc3339 (t : Int) : Bytes :=
  116 :: encInt t

/-- `TimestampToken` (timestamp.rs). -/
structure TimestampToken where
  time : Int
  authority : Bytes
  proof : Bytes
  algorithm : Bytes
  deriving DecidableEq, Repr

/-- `create_timestamp_token`: authority defaults to "manual", algorithm
is "rfc3161" exactly when a proof is supplied. -/
def create_timestamp_token (time : Int) (authority : Option Bytes) (proof : Option Bytes) :
    TimestampToken where
  time := time
  authority := authority.getD (ascii "manual")
  proof := proof.getD []
  algorithm := if proof.isSome then ascii "rfc3161" else ascii "manual"

/-- A `TimestampProvider` is its `get_timestamp` capability; the
returned error payload is irrelevant, so it is a plain unit. -/
abbrev TimestampProvider := Bytes → Except Unit TimestampToken

/-! ## Signatures (signature.rs) -/

def SIGNATURE_VERSION_CURRENT : Nat := 2
def SIGNATURE_VERSION_LEGACY : Nat := 1

inductive SignatureScope : Type
  | Full
  | ContentOnly
  | Sections (ids : List Bytes)
  deriving DecidableEq, Repr

inductive SignatureAlgorithm : Type
  | Ed25519
  | Secp256k1
  | RsaPss
  deriving DecidableEq, Repr

/-- `SignerInfo`. -/
structure SignerInfo where
  id : Bytes
  name : Bytes
  certificate : Option Bytes
  deriving DecidableEq, Repr

/-- `TimestampInfo`. -/
structure TimestampInfo where
  time : Int
  authority : Option Bytes
  proof : Option Bytes
  deriving DecidableEq, Repr

/-- `From<TimestampToken> for TimestampInfo`: authority is kept, the
proof is dropped when empty. -/
def TimestampInfo.ofToken (tok : TimestampToken) : TimestampInfo where
  time := tok.time
  authority := some tok.authority
  proof := if tok.proof.isEmpty then none else some tok.proof

/-- `DocumentSignature`. -/
structure DocumentSignature where
  version : Nat
  signer : SignerInfo
  timestamp : TimestampInfo
  scope : SignatureScope
  algorithm : SignatureAlgorithm
  root_hash : Bytes
  signature : Bytes
  deriving DecidableEq, Repr

/-- `SignatureBlock`. -/
structure SignatureBlock where
  signatures : List DocumentSignature
  deriving DecidableEq, Repr

/-- Join a list of byte strings with a separator byte (`join(",")`). -/
def joinWith (sepByte : Nat) : List Bytes → Bytes
  | [] => []
  | [x] => x
  | x :: xs => x ++ sepByte :: joinWith sepByte xs

/-- The canonical scope string of `compute_signing_payload`:
"full", "content-only", or "sections:" with the sorted ids joined by
commas. -/
def scopeCanonical : SignatureScope → Bytes
  | .Full => ascii "full"
  | .ContentOnly => ascii "content-only"
  | .Sections sections => ascii "sections:" ++ joinWith 44 (sortByKey id sections)

/-- The exact byte stream `compute_signing_payload` feeds to SHA-256:
domain separator, raw root bytes, RFC 3339 timestamp, signer id,
canonical scope. -/
def signingPreimage (root_hash : Bytes) (timestamp : Int) (signer_id : Bytes)
    (scope : SignatureScope) : Bytes :=
  ascii "TDF-SIGNATURE-V2:" ++ root_hash ++ rfc3339 timestamp ++ signer_id
    ++ scopeCanonical scope

/-- `compute_signing_payload` (signature.rs lines 77-111). -/
def compute_signing_payload (P : SigPrims) (root_hash : Bytes) (timestamp : Int)
    (signer_id : Bytes) (scope : SignatureScope) : Bytes :=
  P.sha256 (signingPreimage root_hash timestamp signer_id scope)

/-- `compute_signing_payload_legacy` (v1: the raw root bytes). -/
def compute_signing_payload_legacy (root_hash : Bytes) : Bytes :=
  root_hash

/-- `SignatureManager::sign_ed25519_with_timestamp` (signature.rs lines
246-296): take the timestamp first (falling back to the local time with
no authority and no proof if the provider fails or is absent), sign the
v2 payload, base64-encode, and return a v2 signature whose stored
root_hash is the hex of the root bytes. -/
def sign_ed25519_with_timestamp (P : SigPrims) (signing_key : Bytes) (root_hash : Bytes)
    (signer_id signer_name : Bytes) (scope : SignatureScope)
    (timestamp_provider : Option TimestampProvider) (now : Int) : DocumentSignature :=
  let timestamp : TimestampInfo :=
    match timestamp_provider with
    | some provider =>
      match provider root_hash with
      | .ok t => TimestampInfo.ofToken t
      | .error _ => { time := now, authority := none, proof := none }
    | none => { time := now, authority := none, proof := none }
  let signing_payload := compute_signing_payload P root_hash timestamp.time signer_id scope
  let signature := P.edSign signing_key signing_payload
  { version := SIGNATURE_VERSION_CURRENT
    signer := { id := signer_id, name := signer_name, certificate := none }
    timestamp
    scope
    algorithm := .Ed25519
    root_hash := hexEncode root_hash
    signature := b64Encode signature }

/-- `SignatureManager::sign_ed25519` (no provider). -/
def sign_ed25519 (P : SigPrims) (signing_key : Bytes) (root_hash : Bytes)
    (signer_id signer_name : Bytes) (scope : SignatureScope) (now : Int) : DocumentSignature :=
  sign_ed25519_with_timestamp P signing_key root_hash signer_id signer_name scope none now

/-- `SignatureManager::sign_secp256k1` (signature.rs lines 361-403). -/
def sign_secp256k1 (P : SigPrims) (signing_key : Bytes) (root_hash : Bytes)
    (signer_id signer_name : Bytes) (scope : SignatureScope) (now : Int) : DocumentSignature :=
  let timestamp : TimestampInfo := { time := now, authority := none, proof := none }
  let signing_payload := compute_signing_payload P root_hash timestamp.time signer_id scope
  let signature := P.secpSign signing_key signing_payload
  { version := SIGNATURE_VERSION_CURRENT
    signer := { id := signer_id, name := signer_name, certificate := none }
    timestamp
    scope
    algorithm := .Secp256k1
    root_hash := hexEncode root_hash
    signature := b64Encode signature }

/-- `SignatureManager::verify_ed25519` (signature.rs lines 303-356):
algorithm gate, base64 decode, 64-byte length check, version-aware
payload reconstruction from the signature's own stored
timestamp/signer/scope, then Ed25519 verification. -/
def verify_ed25519 (P : SigPrims) (signature : DocumentSignature) (root_hash : Bytes)
    (verifying_key : Bytes) : Except TdfError Bool :=
  if signature.algorithm ≠ .Ed25519 then .error .unsupportedSignatureAlgorithm
  else
    match b64Decode signature.signature with
    | none => .error .signatureFailure
    | some signature_bytes =>
      if signature_bytes.length ≠ 64 then .error .signatureFailure
      else
        let verification_payload :=
          if signature.version ≥ SIGNATURE_VERSION_CURRENT then
            compute_signing_payload P root_hash signature.timestamp.time
              signature.signer.id signature.scope
          else
            compute_signing_payload_legacy root_hash
        if P.edVerify verifying_key verification_payload signature_bytes then .ok true
        else .error .signatureFailure

/-- `SignatureManager::verify_secp256k1` (signature.rs lines 410-456);
the DER decoding of the k256 crate is modelled by the base64 layer
(decode failure is the only observable behaviour). -/
def verify_secp256k1 (P : SigPrims) (signature : DocumentSignature) (root_hash : Bytes)
    (verifying_key : Bytes) : Except TdfError Bool :=
  if signature.algorithm ≠ .Secp256k1 then .error .unsupportedSignatureAlgorithm
  else
    match b64Decode signature.signature with
    | none => .error .signatureFailure
    | some signature_bytes =>
      let verification_payload :=
        if signature.version ≥ SIGNATURE_VERSION_CURRENT then
          compute_signing_payload P root_hash signature.timestamp.time
            signature.signer.id signature.scope
        else
          compute_signing_payload_legacy root_hash
      if P.secpVerify verifying_key verification_payload signature_bytes then .ok true
      else .error .signatureFailure

/-- `VerificationResult` (signature.rs). -/
inductive VerificationResult : Type
  | Valid (signer : Bytes) (timestamp : Int)
  | Invalid (signer : Bytes)
  | Revoked (signer : Bytes) (revoked_at : Int)
  | Unsupported (signer : Bytes)
  deriving DecidableEq, Repr

/-- Key directory lookup: `keys.iter().find(|(id, _)| *id == signer_id)`. -/
def lookupKey (keys : List (Bytes × Bytes)) (signer_id : Bytes) : Option Bytes :=
  match keys.find? (fun p => p.1 == signer_id) with
  | none => none
  | some p => some p.2

/-! ## Revocation (revocation.rs) -/

/-- `RevocationReason` with its RFC 5280 discriminants (the `as u8`
values used in the canonical payload). -/
inductive RevocationReason : Type
  | Unspecified
  | KeyCompromise
  | CaCompromise
  | AffiliationChanged
  | Superseded
  | CessationOfOperation
  | CertificateHold
  | RemoveFromCrl
  | PrivilegeWithdrawn
  | AaCompromise
  deriving DecidableEq, Repr

/-- The `as u8` discriminant of a reason. -/
def RevocationReason.toByte : RevocationReason → Nat
  | .Unspecified => 0
  | .KeyCompromise => 1
  | .CaCompromise => 2
  | .AffiliationChanged => 3
  | .Superseded => 4
  | .CessationOfOperation => 5
  | .CertificateHold => 6
  | .RemoveFromCrl => 8
  | .PrivilegeWithdrawn => 9
  | .AaCompromise => 10

/-- `RevocationEntry`. -/
structure RevocationEntry where
  signer_id : Bytes
  revoked_at : Int
  reason : RevocationReason
  issued_at : Option Int
  authority : Option Bytes
  deriving DecidableEq, Repr

/-- `RevocationList` (the unsigned list). -/
structure RevocationList where
  version : Nat
  issued_at : Int
  next_update : Option Int
  issuer : Option Bytes
  revoked_keys : List RevocationEntry
  deriving DecidableEq, Repr

/-- `RevocationList::is_revoked`. -/
def RevocationList.is_revoked (l : RevocationList) (signer_id : Bytes) :
    Option RevocationEntry :=
  l.revoked_keys.find? (fun entry => entry.signer_id == signer_id)

/-- `RevocationList::is_revoked_at` (revocation.rs lines 94-100): the
first entry whose signer id matches and whose revocation time is at or
before the check time. -/
def RevocationList.is_revoked_at (l : RevocationList) (signer_id : Bytes) (check_time : Int) :
    Option RevocationEntry :=
  l.revoked_keys.find? (fun entry =>
    entry.signer_id == signer_id && decide (entry.revoked_at ≤ check_time))

/-- `RevocationList::unrevoke`. -/
def RevocationList.unrevoke (l : RevocationList) (signer_id : Bytes) : RevocationList :=
  { l with revoked_keys := l.revoked_keys.filter (fun e => e.signer_id ≠ signer_id) }

/-- `AuthorityInfo`. -/
structure AuthorityInfo where
  id : Bytes
  name : Bytes
  public_key : Bytes
  url : Option Bytes
  deriving DecidableEq, Repr

/-- `AuthorityInfo::verifying_key`: hex-decode the stored key, require
32 bytes (the dalek curve-point decoding, an external concern, is
modelled as accepting any 32 bytes). -/
def AuthorityInfo.verifying_key (a : AuthorityInfo) : Except TdfError Bytes :=
  match hexDecode a.public_key with
  | none => .error .invalidDocument
  | some bytes => if bytes.length ≠ 32 then .error .invalidDocument else .ok bytes

/-- `SignedRevocationList`. -/
structure SignedRevocationList where
  version : Nat
  entries : List RevocationEntry
  authority : AuthorityInfo
  issued_at : Int
  next_update : Option Int
  signature : Bytes
  deriving DecidableEq, Repr

def SIGNED_REVOCATION_VERSION : Nat := 1

/-- The exact byte stream `SignedRevocationList::canonical_payload`
feeds to SHA-256: domain separator, version byte, authority id and
key with ":" separators, big-endian timestamps, then the entries
sorted (stably) by signer id, each as id ":" be64(revoked_at) ":"
reason byte ";". -/
def canonicalPayloadPreimage (l : SignedRevocationList) : Bytes :=
  ascii "TDF-REVOCATION-V1:"
    ++ [l.version % 256]
    ++ l.authority.id ++ ascii ":"
    ++ l.authority.public_key ++ ascii ":"
    ++ be64i l.issued_at
    ++ (match l.next_update with
        | none => []
        | some next => be64i next)
    ++ (sortByKey RevocationEntry.signer_id l.entries).foldr
        (fun entry acc =>
          entry.signer_id ++ ascii ":" ++ be64i entry.revoked_at ++ ascii ":"
            ++ [entry.reason.toByte] ++ ascii ";" ++ acc) []

/-- `SignedRevocationList::canonical_payload` (the SHA-256 hash of the
preimage). -/
def canonical_payload (P : SigPrims) (l : SignedRevocationList) : Bytes :=
  P.sha256 (canonicalPayloadPreimage l)

/-- `SignedRevocationList::new` (revocation.rs lines 250-282): rejects
an authority whose stored hex key differs from the signing key's
verifying key, then signs the canonical payload. -/
def SignedRevocationList.new (P : SigPrims) (entries : List RevocationEntry)
    (authority : AuthorityInfo) (signing_key : Bytes) (validity_hours : Option Int)
    (now : Int) : Except TdfError SignedRevocationList :=
  let issued_at := now
  let next_update := validity_hours.map (fun h => issued_at + h * 3600)
  let expected_public_key := hexEncode (P.edPub signing_key)
  if authority.public_key ≠ expected_public_key then .error .signatureFailure
  else
    let base : SignedRevocationList :=
      { version := SIGNED_REVOCATION_VERSION, entries, authority, issued_at, next_update
        signature := [] }
    let payload := canonical_payload P base
    .ok { base with signature := b64Encode (P.edSign signing_key payload) }

/-- `SignedRevocationList::verify` (revocation.rs lines 292-361): parse
the embedded authority key, base64-decode the signature, require 64
bytes, recompute the canonical payload and verify. -/
def SignedRevocationList.verify (P : SigPrims) (l : SignedRevocationList) :
    Except TdfError Bool :=
  match l.authority.verifying_key with
  | .error e => .error e
  | .ok verifying_key =>
    match b64Decode l.signature with
    | none => .error .signatureFailure
    | some sig_bytes =>
      if sig_bytes.length ≠ 64 then .error .signatureFailure
      else
        let payload := canonical_payload P l
        if P.edVerify verifying_key payload sig_bytes then .ok true
        else .error .signatureFailure

/-- `SignedRevocationList::is_revoked_at`. -/
def SignedRevocationList.is_revoked_at (l : SignedRevocationList) (signer_id : Bytes)
    (check_time : Int) : Option RevocationEntry :=
  l.entries.find? (fun e => e.signer_id == signer_id && decide (e.revoked_at ≤ check_time))

/-- `RevocationManager`. -/
structure RevocationManager where
  lists : List RevocationList
  signed_lists : List SignedRevocationList
  trusted_authorities : List (Bytes × Bytes)
  deriving DecidableEq, Repr

/-- `RevocationManager::new`. -/
def RevocationManager.new : RevocationManager :=
  { lists := [], signed_lists := [], trusted_authorities := [] }

/-- `RevocationManager::add_list`. -/
def RevocationManager.add_list (m : RevocationManager) (l : RevocationList) :
    RevocationManager :=
  { m with lists := m.lists ++ [l] }

/-- `RevocationManager::is_revoked_at` (unsigned lists first, then
signed lists). -/
def RevocationManager.is_revoked_at (m : RevocationManager) (signer_id : Bytes)
    (check_time : Int) : Option RevocationEntry :=
  match m.lists.findSome? (fun l => l.is_revoked_at signer_id check_time) with
  | some e => some e
  | none => m.signed_lists.findSome? (fun l => l.is_revoked_at signer_id check_time)

/-- Per-signature body of `verify_signature_block_mixed` (signature.rs
lines 475-570): a revocation hit at or before the signature's own
timestamp short-circuits to Revoked before any key lookup or byte
verification; otherwise keys are looked up by signer id and algorithm
and the result is Valid / Invalid / Unsupported. -/
def verifyOneSignature (P : SigPrims) (sig : DocumentSignature) (root_hash : Bytes)
    (ed25519_keys : List (Bytes × Bytes)) (secp256k1_keys : List (Bytes × Bytes))
    (revocation_manager : Option RevocationManager) : VerificationResult :=
  match
    (match revocation_manager with
     | some manager => manager.is_revoked_at sig.signer.id sig.timestamp.time
     | none => none) with
  | some revocation_entry => .Revoked sig.signer.name revocation_entry.revoked_at
  | none =>
    match sig.algorithm with
    | .Ed25519 =>
      match lookupKey ed25519_keys sig.signer.id with
      | some key =>
        match verify_ed25519 P sig root_hash key with
        | .ok true => .Valid sig.signer.name sig.timestamp.time
        | .ok false => .Invalid sig.signer.name
        | .error _ => .Invalid sig.signer.name
      | none => .Invalid sig.signer.name
    | .Secp256k1 =>
      match lookupKey secp256k1_keys sig.signer.id with
      | some key =>
        match verify_secp256k1 P sig root_hash key with
        | .ok true => .Valid sig.signer.name sig.timestamp.time
        | .ok false => .Invalid sig.signer.name
        | .error _ => .Invalid sig.signer.name
      | none => .Invalid sig.signer.name
    | .RsaPss => .Unsupported sig.signer.name

/-- `SignatureManager::verify_signature_block_mixed`. -/
def verify_signature_block_mixed (P : SigPrims) (block : SignatureBlock) (root_hash : Bytes)
    (ed25519_keys : List (Bytes × Bytes)) (secp256k1_keys : List (Bytes × Bytes))
    (revocation_manager : Option RevocationManager) :
    Except TdfError (List VerificationResult) :=
  .ok (block.signatures.map (fun sig =>
    verifyOneSignature P sig root_hash ed25519_keys secp256k1_keys revocation_manager))

/-! ## Multi-party signing sessions (multiparty.rs) -/

inductive SigningOrder : Type
  | Unordered
  | Ordered (ids : List Bytes)
  | Simultaneous
  deriving DecidableEq, Repr

/-- `MultiPartySigningSession`. -/
structure MultiPartySigningSession where
  root_hash : Bytes
  order : SigningOrder
  signatures : List DocumentSignature
  required_signers : List Bytes
  created : Int
  deriving DecidableEq, Repr

/-- `MultiPartySigningSession::new`. -/
def MultiPartySigningSession.new (root_hash : Bytes) (order : SigningOrder)
    (required_signers : List Bytes) (now : Int) : MultiPartySigningSession :=
  { root_hash, order, signatures := [], required_signers, created := now }

/-- `MultiPartySigningSession::add_signature` (multiparty.rs lines
41-82): reject a signer outside the required list, then a signer who
already signed, then — in Ordered mode — a signer whose index in the
order vector differs from the current signature count. -/
def MultiPartySigningSession.add_signature (s : MultiPartySigningSession)
    (signature : DocumentSignature) : Except TdfError MultiPartySigningSession :=
  if ¬ s.required_signers.contains signature.signer.id then .error .signatureFailure
  else if s.signatures.any (fun prev => prev.signer.id == signature.signer.id) then
    .error .signatureFailure
  else
    match
      (match s.order with
       | .Ordered order =>
         match order.indexOf? signature.signer.id with
         | none => .error .signatureFailure
         | some expected_index =>
           if expected_index ≠ s.signatures.length then .error .signatureFailure
           else .ok ()
       | _ => .ok () : Except TdfError Unit) with
    | .error e => .error e
    | .ok _ => .ok { s with signatures := s.signatures ++ [signature] }

/-- `MultiPartySigningSession::is_complete` (multiparty.rs lines
254-256): compares only the two lengths. -/
def MultiPartySigningSession.is_complete (s : MultiPartySigningSession) : Bool :=
  s.signatures.length == s.required_signers.length

/-- The session states reachable from a fresh session by
`add_signature` operations alone. -/
inductive ReachableSession : MultiPartySigningSession → Prop
  | fresh (root_hash : Bytes) (order : SigningOrder) (required_signers : List Bytes)
      (now : Int) :
      ReachableSession (MultiPartySigningSession.new root_hash order required_signers now)
  | step (s s2 : MultiPartySigningSession) (signature : DocumentSignature) :
      ReachableSession s → s.add_signature signature = .ok s2 → ReachableSession s2

/-! ## Security policy (config.rs)

(`max_decompression_ratio` is rendered as `ratio_max` and
`check_decompression_ratio` as `check_decompression`.) -/

inductive SizeTier : Type
  | Micro
  | Standard
  | Extended
  deriving DecidableEq, Repr

/-- `SizeTier::max_size_bytes`. -/
def SizeTier.max_size_bytes : SizeTier → Nat
  | .Micro => 256 * 1024
  | .Standard => 5 * 1024 * 1024
  | .Extended => 50 * 1024 * 1024

/-- `SizeTier::max_decompression_ratio`. -/
def SizeTier.tierRatioMax : SizeTier → Nat
  | .Micro => 100
  | .Standard => 1000
  | .Extended => 10000

/-- `SizeTier::max_file_size`. -/
def SizeTier.max_file_size : SizeTier → Nat
  | .Micro => 64 * 1024
  | .Standard => 1 * 1024 * 1024
  | .Extended => 10 * 1024 * 1024

/-- `SecurityConfig`. -/
structure SecurityConfig where
  max_archive_size : Nat
  ratio_max : Nat
  max_file_size : Nat
  max_file_count : Nat
  strict_size_check : Bool
  reject_legacy_merkle : Bool
  reject_legacy_signatures : Bool
  require_rfc3161_timestamps : Bool
  deriving DecidableEq, Repr

/-- `SecurityConfig::for_tier`. -/
def SecurityConfig.for_tier (tier : SizeTier) : SecurityConfig where
  max_archive_size := tier.max_size_bytes
  ratio_max := tier.tierRatioMax
  max_file_size := tier.max_file_size
  max_file_count := 1000
  strict_size_check := true
  reject_legacy_merkle := true
  reject_legacy_signatures := true
  require_rfc3161_timestamps := false

/-- `SecurityConfig::strict`. -/
def SecurityConfig.strict (tier : SizeTier) : SecurityConfig :=
  { SecurityConfig.for_tier tier with require_rfc3161_timestamps := true }

/-- `SecurityConfig::default` (Standard tier). -/
def SecurityConfig.default : SecurityConfig :=
  SecurityConfig.for_tier .Standard

/-- `SecurityConfig::permissive`. -/
def SecurityConfig.permissive : SecurityConfig where
  max_archive_size := 100 * 1024 * 1024
  ratio_max := 100000
  max_file_size := 50 * 1024 * 1024
  max_file_count := 10000
  strict_size_check := false
  reject_legacy_merkle := false
  reject_legacy_signatures := false
  require_rfc3161_timestamps := false

/-- `SecurityConfig::check_size`. -/
def SecurityConfig.check_size (c : SecurityConfig) (size : Nat) : Except TdfError Unit :=
  if size > c.max_archive_size then .error .fileSizeExceeded else .ok ()

/-- `SecurityConfig::check_file_size`. -/
def SecurityConfig.check_file_size (c : SecurityConfig) (size : Nat) : Except TdfError Unit :=
  if size > c.max_file_size then .error .fileSizeExceeded else .ok ()

/-- `SecurityConfig::check_decompression_ratio` (config.rs lines
151-174): empty output is fine; zero compressed size with non-empty
output means a stored entry, checked against the absolute file-size
limit instead of dividing; otherwise integer-divide and compare with
the ceiling. -/
def SecurityConfig.check_decompression (c : SecurityConfig) (compressed uncompressed : Nat) :
    Except TdfError Unit :=
  if uncompressed = 0 then .ok ()
  else if compressed = 0 then c.check_file_size uncompressed
  else
    let r := uncompressed / compressed
    if r > c.ratio_max then .error .fileSizeExceeded else .ok ()

/-- `SecurityConfig::check_file_count` (config.rs lines 179-187). -/
def SecurityConfig.check_file_count (c : SecurityConfig) (count : Nat) : Except TdfError Unit :=
  if count > c.max_file_count then .error .sizeExceeded else .ok ()

/-- `SecurityConfig::check_merkle_version` (config.rs lines 205-213). -/
def SecurityConfig.check_merkle_version (c : SecurityConfig) (version : Nat) :
    Except TdfError Unit :=
  if c.reject_legacy_merkle ∧ version < 2 then .error .policyViolation else .ok ()

/-- `SecurityConfig::check_signature_version` (config.rs lines
218-226). -/
def SecurityConfig.check_signature_version (c : SecurityConfig) (version : Nat) :
    Except TdfError Unit :=
  if c.reject_legacy_signatures ∧ version < 2 then .error .policyViolation else .ok ()

/-! ## Document data model (document.rs, content.rs)

`f64` fields (cell raw values) carry no arithmetic anywhere in the
pipeline and are serialized bit-exactly, so they are modelled by their
raw 64-bit patterns as `Nat`. -/

inductive DocHashAlgorithm : Type
  | Sha256
  | Blake3
  deriving DecidableEq, Repr

structure IntegrityBlock where
  root_hash : Bytes
  algorithm : DocHashAlgorithm
  deriving DecidableEq, Repr

structure DocumentMeta where
  id : Bytes
  title : Bytes
  language : Bytes
  created : Int
  modified : Int
  deriving DecidableEq, Repr

structure Author where
  id : Bytes
  name : Bytes
  role : Option Bytes
  deriving DecidableEq, Repr

inductive Classification : Type
  | Public
  | Internal
  | Confidential
  | Restricted
  deriving DecidableEq, Repr

structure Manifest where
  schema_version : Bytes
  document : DocumentMeta
  authors : List Author
  classification : Option Classification
  integrity : IntegrityBlock
  deriving DecidableEq, Repr

inductive CellType : Type
  | Text
  | Number
  | Currency
  | Percentage
  | Date
  | Formula
  deriving DecidableEq, Repr

/-- `CellValue`; `raw : f64` is the raw 64-bit pattern. -/
inductive CellValue : Type
  | Text (text : Bytes)
  | Number (raw : Nat) (display : Bytes)
  | Currency (raw : Nat) (display : Bytes) (currency : Bytes)
  | Percentage (raw : Nat) (display : Bytes)
  | Date (raw : Bytes) (display : Bytes)
  deriving DecidableEq, Repr

structure TableColumn where
  id : Bytes
  header : Bytes
  cell_type : CellType
  currency : Option Bytes
  deriving DecidableEq, Repr

/-- `TableRow`: the cell map as an association list in iteration
order. -/
structure TableRow where
  cells : List (Bytes × CellValue)
  deriving DecidableEq, Repr

inductive DiagramType : Type
  | Hierarchical
  | Flowchart
  | Relationship
  deriving DecidableEq, Repr

inductive DiagramShape : Type
  | Box
  | Circle
  | Diamond
  | Rounded
  deriving DecidableEq, Repr

structure DiagramNode where
  id : Bytes
  label : Bytes
  shape : Option DiagramShape
  style : Option Bytes
  deriving DecidableEq, Repr

inductive EdgeType : Type
  | Solid
  | Dashed
  | Dotted
  deriving DecidableEq, Repr

structure DiagramEdge where
  src : Bytes
  dst : Bytes
  edge_type : EdgeType
  label : Option Bytes
  deriving DecidableEq, Repr

inductive LayoutDirection : Type
  | TopDown
  | LeftRight
  | BottomUp
  | RightLeft
  deriving DecidableEq, Repr

inductive LayoutSpacing : Type
  | Compact
  | Normal
  | Wide
  deriving DecidableEq, Repr

structure DiagramLayout where
  direction : Option LayoutDirection
  spacing : Option LayoutSpacing
  deriving DecidableEq, Repr

inductive ContentBlock : Type
  | Heading (level : Nat) (text : Bytes) (id : Option Bytes)
  | Paragraph (text : Bytes) (id : Option Bytes)
  | ListBlock (ordered : Bool) (items : List Bytes) (id : Option Bytes)
  | Table (id : Bytes) (caption : Option Bytes) (columns : List TableColumn)
      (rows : List TableRow) (footer : Option (List Bytes))
  | Diagram (id : Bytes) (diagram_type : DiagramType) (title : Option Bytes)
      (nodes : List DiagramNode) (edges : List DiagramEdge) (layout : Option DiagramLayout)
  | Figure (id : Bytes) (asset : Bytes) (alt : Bytes) (caption : Option Bytes)
      (width : Option Nat)
  | Footnote (id : Bytes) (text : Bytes)
  deriving DecidableEq, Repr

structure Section where
  id : Bytes
  title : Option Bytes
  content : List ContentBlock
  deriving DecidableEq, Repr

structure DocumentContent where
  sections : List Section
  deriving DecidableEq, Repr

inductive PageSize : Type
  | A4
  | Letter
  | Legal
  | Custom (width : Bytes) (height : Bytes)
  deriving DecidableEq, Repr

inductive PageOrientation : Type
  | Portrait
  | Landscape
  deriving DecidableEq, Repr

structure Margins where
  top : Bytes
  bottom : Bytes
  left : Bytes
  right : Bytes
  deriving DecidableEq, Repr

structure PageLayout where
  size : PageSize
  orientation : PageOrientation
  margins : Margins
  deriving DecidableEq, Repr

structure Position where
  x : Bytes
  y : Bytes
  deriving DecidableEq, Repr

structure SizeSpec where
  width : Bytes
  height : Bytes
  deriving DecidableEq, Repr

structure LayoutElement where
  ref_id : Bytes
  page : Nat
  position : Position
  size : Option SizeSpec
  deriving DecidableEq, Repr

structure Layout where
  version : Nat
  pages : PageLayout
  elements : List LayoutElement
  deriving DecidableEq, Repr

/-- `serde_json::Value` sidecar data, carried opaquely as its
serialized bytes (nothing in the pipeline inspects it). -/
abbrev JsonValue := Bytes

structure Document where
  manifest : Manifest
  content : DocumentContent
  styles : Bytes
  layout : Option Layout
  data : Option JsonValue
  deriving DecidableEq, Repr

/-- `Document::validate` (document.rs lines 162-184): non-empty schema
version, document id, title, and at least one section. -/
def Document.validate (d : Document) : Except TdfError Unit :=
  if d.manifest.schema_version.isEmpty then .error .invalidDocument
  else if d.manifest.document.id.isEmpty then .error .invalidDocument
  else if d.manifest.document.title.isEmpty then .error .invalidDocument
  else if d.content.sections.isEmpty then .error .invalidDocument
  else .ok ()

/-! ## Component serialization

Stand-ins for `serde_cbor::to_vec` / `from_slice` (and ciborium) on
the concrete document types, built from the codec toolkit above; see
the toolkit's header note. -/

def encDocHashAlgorithm : DocHashAlgorithm → Bytes
  | .Sha256 => [0]
  | .Blake3 => [1]

def decDocHashAlgorithm : Bytes → Option (DocHashAlgorithm × Bytes)
  | 0 :: r => some (.Sha256, r)
  | 1 :: r => some (.Blake3, r)
  | _ => none

def encClassification : Classification → Bytes
  | .Public => [0]
  | .Internal => [1]
  | .Confidential => [2]
  | .Restricted => [3]

def decClassification : Bytes → Option (Classification × Bytes)
  | 0 :: r => some (.Public, r)
  | 1 :: r => some (.Internal, r)
  | 2 :: r => some (.Confidential, r)
  | 3 :: r => some (.Restricted, r)
  | _ => none

def encIntegrityBlock (b : IntegrityBlock) : Bytes :=
  encStr b.root_hash ++ encDocHashAlgorithm b.algorithm

def decIntegrityBlock (bs : Bytes) : Option (IntegrityBlock × Bytes) :=
  match decStr bs with
  | none => none
  | some (root_hash, r1) =>
    match decDocHashAlgorithm r1 with
    | none => none
    | some (algorithm, r2) => some ({ root_hash, algorithm }, r2)

def encDocumentMeta (m : DocumentMeta) : Bytes :=
  encStr m.id ++ encStr m.title ++ encStr m.language ++ encInt m.created ++ encInt m.modified

def decDocumentMeta (bs : Bytes) : Option (DocumentMeta × Bytes) :=
  match decStr bs with
  | none => none
  | some (id, r1) =>
    match decStr r1 with
    | none => none
    | some (title, r2) =>
      match decStr r2 with
      | none => none
      | some (language, r3) =>
        match decInt r3 with
        | none => none
        | some (created, r4) =>
          match decInt r4 with
          | none => none
          | some (modified, r5) => some ({ id, title, language, created, modified }, r5)

def encAuthor (a : Author) : Bytes :=
  encStr a.id ++ encStr a.name ++ encOption encStr a.role

def decAuthor (bs : Bytes) : Option (Author × Bytes) :=
  match decStr bs with
  | none => none
  | some (id, r1) =>
    match decStr r1 with
    | none => none
    | some (name, r2) =>
      match decOption decStr r2 with
      | none => none
      | some (role, r3) => some ({ id, name, role }, r3)

/-- Stand-in for `serde_cbor::to_vec(&manifest)`. -/
def encManifest (m : Manifest) : Bytes :=
  encStr m.schema_version ++ encDocumentMeta m.document ++ encList encAuthor m.authors
    ++ encOption encClassification m.classification ++ encIntegrityBlock m.integrity

/-- Stand-in for `serde_cbor::from_slice::<Manifest>`. -/
def decManifest (bs : Bytes) : Option (Manifest × Bytes) :=
  match decStr bs with
  | none => none
  | some (schema_version, r1) =>
    match decDocumentMeta r1 with
    | none => none
    | some (document, r2) =>
      match decList decAuthor r2 with
      | none => none
      | some (authors, r3) =>
        match decOption decClassification r3 with
        | none => none
        | some (classification, r4) =>
          match decIntegrityBlock r4 with
          | none => none
          | some (integrity, r5) =>
            some ({ schema_version, document, authors, classification, integrity }, r5)

def encCellType : CellType → Bytes
  | .Text => [0]
  | .Number => [1]
  | .Currency => [2]
  | .Percentage => [3]
  | .Date => [4]
  | .Formula => [5]

def decCellType : Bytes → Option (CellType × Bytes)
  | 0 :: r => some (.Text, r)
  | 1 :: r => some (.Number, r)
  | 2 :: r => some (.Currency, r)
  | 3 :: r => some (.Percentage, r)
  | 4 :: r => some (.Date, r)
  | 5 :: r => some (.Formula, r)
  | _ => none

def encCellValue : CellValue → Bytes
  | .Text text => 0 :: encStr text
  | .Number raw display => 1 :: encNat raw ++ encStr display
  | .Currency raw display currency => 2 :: encNat raw ++ encStr display ++ encStr currency
  | .Percentage raw display => 3 :: encNat raw ++ encStr display
  | .Date raw display => 4 :: encStr raw ++ encStr display

def decCellValue : Bytes → Option (CellValue × Bytes)
  | 0 :: r =>
    match decStr r with
    | none => none
    | some (text, r1) => some (.Text text, r1)
  | 1 :: r =>
    match decNat r with
    | none => none
    | some (raw, r1) =>
      match decStr r1 with
      | none => none
      | some (display, r2) => some (.Number raw display, r2)
  | 2 :: r =>
    match decNat r with
    | none => none
    | some (raw, r1) =>
      match decStr r1 with
      | none => none
      | some (display, r2) =>
        match decStr r2 with
        | none => none
        | some (currency, r3) => some (.Currency raw display currency, r3)
  | 3 :: r =>
    match decNat r with
    | none => none
    | some (raw, r1) =>
      match decStr r1 with
      | none => none
      | some (display, r2) => some (.Percentage raw display, r2)
  | 4 :: r =>
    match decStr r with
    | none => none
    | some (raw, r1) =>
      match decStr r1 with
      | none => none
      | some (display, r2) => some (.Date raw display, r2)
  | _ => none

def encTableColumn (c : TableColumn) : Bytes :=
  encStr c.id ++ encStr c.header ++ encCellType c.cell_type ++ encOption encStr c.currency

def decTableColumn (bs : Bytes) : Option (TableColumn × Bytes) :=
  match decStr bs with
  | none => none
  | some (id, r1) =>
    match decStr r1 with
    | none => none
    | some (header, r2) =>
      match decCellType r2 with
      | none => none
      | some (cell_type, r3) =>
        match decOption decStr r3 with
        | none => none
        | some (currency, r4) => some ({ id, header, cell_type, currency }, r4)

def encTableRow (r : TableRow) : Bytes :=
  encList (encProd encStr encCellValue) r.cells

def decTableRow (bs : Bytes) : Option (TableRow × Bytes) :=
  match decList (decProd decStr decCellValue) bs with
  | none => none
  | some (cells, r1) => some ({ cells }, r1)

def encDiagramType : DiagramType → Bytes
  | .Hierarchical => [0]
  | .Flowchart => [1]
  | .Relationship => [2]

def decDiagramType : Bytes → Option (DiagramType × Bytes)
  | 0 :: r => some (.Hierarchical, r)
  | 1 :: r => some (.Flowchart, r)
  | 2 :: r => some (.Relationship, r)
  | _ => none

def encDiagramShape : DiagramShape → Bytes
  | .Box => [0]
  | .Circle => [1]
  | .Diamond => [2]
  | .Rounded => [3]

def decDiagramShape : Bytes → Option (DiagramShape × Bytes)
  | 0 :: r => some (.Box, r)
  | 1 :: r => some (.Circle, r)
  | 2 :: r => some (.Diamond, r)
  | 3 :: r => some (.Rounded, r)
  | _ => none

def encDiagramNode (n : DiagramNode) : Bytes :=
  encStr n.id ++ encStr n.label ++ encOption encDiagramShape n.shape ++ encOption encStr n.style

def decDiagramNode (bs : Bytes) : Option (DiagramNode × Bytes) :=
  match decStr bs with
  | none => none
  | some (id, r1) =>
    match decStr r1 with
    | none => none
    | some (label, r2) =>
      match decOption decDiagramShape r2 with
      | none => none
      | some (shape, r3) =>
        match decOption decStr r3 with
        | none => none
        | some (style, r4) => some ({ id, label, shape, style }, r4)

def encEdgeType : EdgeType → Bytes
  | .Solid => [0]
  | .Dashed => [1]
  | .Dotted => [2]

def decEdgeType : Bytes → Option (EdgeType × Bytes)
  | 0 :: r => some (.Solid, r)
  | 1 :: r => some (.Dashed, r)
  | 2 :: r => some (.Dotted, r)
  | _ => none

def encDiagramEdge (e : DiagramEdge) : Bytes :=
  encStr e.src ++ encStr e.dst ++ encEdgeType e.edge_type ++ encOption encStr e.label

def decDiagramEdge (bs : Bytes) : Option (DiagramEdge × Bytes) :=
  match decStr bs with
  | none => none
  | some (src, r1) =>
    match decStr r1 with
    | none => none
    | some (dst, r2) =>
      match decEdgeType r2 with
      | none => none
      | some (edge_type, r3) =>
        match decOption decStr r3 with
        | none => none
        | some (label, r4) => some ({ src, dst, edge_type, label }, r4)

def encLayoutDirection : LayoutDirection → Bytes
  | .TopDown => [0]
  | .LeftRight => [1]
  | .BottomUp => [2]
  | .RightLeft => [3]

def decLayoutDirection : Bytes → Option (LayoutDirection × Bytes)
  | 0 :: r => some (.TopDown, r)
  | 1 :: r => some (.LeftRight, r)
  | 2 :: r => some (.BottomUp, r)
  | 3 :: r => some (.RightLeft, r)
  | _ => none

def encLayoutSpacing : LayoutSpacing → Bytes
  | .Compact => [0]
  | .Normal => [1]
  | .Wide => [2]

def decLayoutSpacing : Bytes → Option (LayoutSpacing × Bytes)
  | 0 :: r => some (.Compact, r)
  | 1 :: r => some (.Normal, r)
  | 2 :: r => some (.Wide, r)
  | _ => none

def encDiagramLayout (l : DiagramLayout) : Bytes :=
  encOption encLayoutDirection l.direction ++ encOption encLayoutSpacing l.spacing

def decDiagramLayout (bs : Bytes) : Option (DiagramLayout × Bytes) :=
  match decOption decLayoutDirection bs with
  | none => none
  | some (direction, r1) =>
    match decOption decLayoutSpacing r1 with
    | none => none
    | some (spacing, r2) => some ({ direction, spacing }, r2)

def encContentBlock : ContentBlock → Bytes
  | .Heading level text id => 0 :: encNat level ++ encStr text ++ encOption encStr id
  | .Paragraph text id => 1 :: encStr text ++ encOption encStr id
  | .ListBlock ordered items id =>
    2 :: encBool ordered ++ encList encStr items ++ encOption encStr id
  | .Table id caption columns rows footer =>
    3 :: encStr id ++ encOption encStr caption ++ encList encTableColumn columns
      ++ encList encTableRow rows ++ encOption (encList encStr) footer
  | .Diagram id diagram_type title nodes edges layout =>
    4 :: encStr id ++ encDiagramType diagram_type ++ encOption encStr title
      ++ encList encDiagramNode nodes ++ encList encDiagramEdge edges
      ++ encOption encDiagramLayout layout
  | .Figure id asset alt caption width =>
    5 :: encStr id ++ encStr asset ++ encStr alt ++ encOption encStr caption
      ++ encOption encNat width
  | .Footnote id text => 6 :: encStr id ++ encStr text

def decContentBlock : Bytes → Option (ContentBlock × Bytes)
  | 0 :: r =>
    match decNat r with
    | none => none
    | some (level, r1) =>
      match decStr r1 with
      | none => none
      | some (text, r2) =>
        match decOption decStr r2 with
        | none => none
        | some (id, r3) => some (.Heading level text id, r3)
  | 1 :: r =>
    match decStr r with
    | none => none
    | some (text, r1) =>
      match decOption decStr r1 with
      | none => none
      | some (id, r2) => some (.Paragraph text id, r2)
  | 2 :: r =>
    match decBool r with
    | none => none
    | some (ordered, r1) =>
      match decList decStr r1 with
      | none => none
      | some (items, r2) =>
        match decOption decStr r2 with
        | none => none
        | some (id, r3) => some (.ListBlock ordered items id, r3)
  | 3 :: r =>
    match decStr r with
    | none => none
    | some (id, r1) =>
      match decOption decStr r1 with
      | none => none
      | some (caption, r2) =>
        match decList decTableColumn r2 with
        | none => none
        | some (columns, r3) =>
          match decList decTableRow r3 with
          | none => none
          | some (rows, r4) =>
            match decOption (decList decStr) r4 with
            | none => none
            | some (footer, r5) => some (.Table id caption columns rows footer, r5)
  | 4 :: r =>
    match decStr r with
    | none => none
    | some (id, r1) =>
      match decDiagramType r1 with
      | none => none
      | some (diagram_type, r2) =>
        match decOption decStr r2 with
        | none => none
        | some (title, r3) =>
          match decList decDiagramNode r3 with
          | none => none
          | some (nodes, r4) =>
            match decList decDiagramEdge r4 with
            | none => none
            | some (edges, r5) =>
              match decOption decDiagramLayout r5 with
              | none => none
              | some (layout, r6) =>
                some (.Diagram id diagram_type title nodes edges layout, r6)
  | 5 :: r =>
    match decStr r with
    | none => none
    | some (id, r1) =>
      match decStr r1 with
      | none => none
      | some (asset, r2) =>
        match decStr r2 with
        | none => none
        | some (alt, r3) =>
          match decOption decStr r3 with
          | none => none
          | some (caption, r4) =>
            match decOption decNat r4 with
            | none => none
            | some (width, r5) => some (.Figure id asset alt caption width, r5)
  | 6 :: r =>
    match decStr r with
    | none => none
    | some (id, r1) =>
      match decStr r1 with
      | none => none
      | some (text, r2) => some (.Footnote id text, r2)
  | _ => none

def encSection (s : Section) : Bytes :=
  encStr s.id ++ encOption encStr s.title ++ encList encContentBlock s.content

def decSection (bs : Bytes) : Option (Section × Bytes) :=
  match decStr bs with
  | none => none
  | some (id, r1) =>
    match decOption decStr r1 with
    | none => none
    | some (title, r2) =>
      match decList decContentBlock r2 with
      | none => none
      | some (content, r3) => some ({ id, title, content }, r3)

/-- Stand-in for `serde_cbor::to_vec(&content)`. -/
def encContent (c : DocumentContent) : Bytes :=
  encList encSection c.sections

/-- Stand-in for `serde_cbor::from_slice::<DocumentContent>`. -/
def decContent (bs : Bytes) : Option (DocumentContent × Bytes) :=
  match decList decSection bs with
  | none => none
  | some (sections, r1) => some ({ sections }, r1)

def encPageSize : PageSize → Bytes
  | .A4 => [0]
  | .Letter => [1]
  | .Legal => [2]
  | .Custom w h => 3 :: encStr w ++ encStr h

def encPageOrientation : PageOrientation → Bytes
  | .Portrait => [0]
  | .Landscape => [1]

def encMargins (m : Margins) : Bytes :=
  encStr m.top ++ encStr m.bottom ++ encStr m.left ++ encStr m.right

def encPageLayout (p : PageLayout) : Bytes :=
  encPageSize p.size ++ encPageOrientation p.orientation ++ encMargins p.margins

def encLayoutElement (e : LayoutElement) : Bytes :=
  encStr e.ref_id ++ encNat e.page ++ encStr e.position.x ++ encStr e.position.y
    ++ encOption (fun s => encStr s.width ++ encStr s.height) e.size

/-- Stand-in for `serde_cbor::to_vec(&layout)` (never re-parsed during
verification, so no decoder is needed). -/
def encLayout (l : Layout) : Bytes :=
  encNat l.version ++ encPageLayout l.pages ++ encList encLayoutElement l.elements

/-- Stand-in for `serde_json::to_vec(&data)`: sidecar data is already
carried as its serialized bytes. -/
def encJson (j : JsonValue) : Bytes :=
  j

def encSignatureScope : SignatureScope → Bytes
  | .Full => [0]
  | .ContentOnly => [1]
  | .Sections ids => 2 :: encList encStr ids

def decSignatureScope : Bytes → Option (SignatureScope × Bytes)
  | 0 :: r => some (.Full, r)
  | 1 :: r => some (.ContentOnly, r)
  | 2 :: r =>
    match decList decStr r with
    | none => none
    | some (ids, r1) => some (.Sections ids, r1)
  | _ => none

def encSignatureAlgorithm : SignatureAlgorithm → Bytes
  | .Ed25519 => [0]
  | .Secp256k1 => [1]
  | .RsaPss => [2]

def decSignatureAlgorithm : Bytes → Option (SignatureAlgorithm × Bytes)
  | 0 :: r => some (.Ed25519, r)
  | 1 :: r => some (.Secp256k1, r)
  | 2 :: r => some (.RsaPss, r)
  | _ => none

def encSignerInfo (s : SignerInfo) : Bytes :=
  encStr s.id ++ encStr s.name ++ encOption encStr s.certificate

def decSignerInfo (bs : Bytes) : Option (SignerInfo × Bytes) :=
  match decStr bs with
  | none => none
  | some (id, r1) =>
    match decStr r1 with
    | none => none
    | some (name, r2) =>
      match decOption decStr r2 with
      | none => none
      | some (certificate, r3) => some ({ id, name, certificate }, r3)

def encTimestampInfo (t : TimestampInfo) : Bytes :=
  encInt t.time ++ encOption encStr t.authority ++ encOption encStr t.proof

def decTimestampInfo (bs : Bytes) : Option (TimestampInfo × Bytes) :=
  match decInt bs with
  | none => none
  | some (time, r1) =>
    match decOption decStr r1 with
    | none => none
    | some (authority, r2) =>
      match decOption decStr r2 with
      | none => none
      | some (proof, r3) => some ({ time, authority, proof }, r3)

def encDocumentSignature (s : DocumentSignature) : Bytes :=
  encNat s.version ++ encSignerInfo s.signer ++ encTimestampInfo s.timestamp
    ++ encSignatureScope s.scope ++ encSignatureAlgorithm s.algorithm
    ++ encStr s.root_hash ++ encStr s.signature

def decDocumentSignature (bs : Bytes) : Option (DocumentSignature × Bytes) :=
  match decNat bs with
  | none => none
  | some (version, r1) =>
    match decSignerInfo r1 with
    | none => none
    | some (signer, r2) =>
      match decTimestampInfo r2 with
      | none => none
      | some (timestamp, r3) =>
        match decSignatureScope r3 with
        | none => none
        | some (scope, r4) =>
          match decSignatureAlgorithm r4 with
          | none => none
          | some (algorithm, r5) =>
            match decStr r5 with
            | none => none
            | some (root_hash, r6) =>
              match decStr r6 with
              | none => none
              | some (signature, r7) =>
                some ({ version, signer, timestamp, scope, algorithm, root_hash, signature },
                  r7)

/-- Stand-in for `serde_cbor::to_vec(&signature_block)`. -/
def encSignatureBlock (b : SignatureBlock) : Bytes :=
  encList encDocumentSignature b.signatures

/-- Stand-in for `serde_cbor::from_slice::<SignatureBlock>`. -/
def decSignatureBlock (bs : Bytes) : Option (SignatureBlock × Bytes) :=
  match decList decDocumentSignature bs with
  | none => none
  | some (signatures, r1) => some ({ signatures }, r1)

def encRevocationReason (r : RevocationReason) : Bytes :=
  [r.toByte]

def decRevocationReason : Bytes → Option (RevocationReason × Bytes)
  | 0 :: r => some (.Unspecified, r)
  | 1 :: r => some (.KeyCompromise, r)
  | 2 :: r => some (.CaCompromise, r)
  | 3 :: r => some (.AffiliationChanged, r)
  | 4 :: r => some (.Superseded, r)
  | 5 :: r => some (.CessationOfOperation, r)
  | 6 :: r => some (.CertificateHold, r)
  | 8 :: r => some (.RemoveFromCrl, r)
  | 9 :: r => some (.PrivilegeWithdrawn, r)
  | 10 :: r => some (.AaCompromise, r)
  | _ => none

def encRevocationEntry (e : RevocationEntry) : Bytes :=
  encStr e.signer_id ++ encInt e.revoked_at ++ encRevocationReason e.reason
    ++ encOption encInt e.issued_at ++ encOption encStr e.authority

def decRevocationEntry (bs : Bytes) : Option (RevocationEntry × Bytes) :=
  match decStr bs with
  | none => none
  | some (signer_id, r1) =>
    match decInt r1 with
    | none => none
    | some (revoked_at, r2) =>
      match decRevocationReason r2 with
      | none => none
      | some (reason, r3) =>
        match decOption decInt r3 with
        | none => none
        | some (issued_at, r4) =>
          match decOption decStr r4 with
          | none => none
          | some (authority, r5) =>
            some ({ signer_id, revoked_at, reason, issued_at, authority }, r5)

/-- Stand-in for `RevocationManager::to_cbor`. -/
def encRevocationList (l : RevocationList) : Bytes :=
  encNat l.version ++ encInt l.issued_at ++ encOption encInt l.next_update
    ++ encOption encStr l.issuer ++ encList encRevocationEntry l.revoked_keys

/-- Stand-in for `RevocationManager::from_cbor`. -/
def decRevocationList (bs : Bytes) : Option (RevocationList × Bytes) :=
  match decNat bs with
  | none => none
  | some (version, r1) =>
    match decInt r1 with
    | none => none
    | some (issued_at, r2) =>
      match decOption decInt r2 with
      | none => none
      | some (next_update, r3) =>
        match decOption decStr r3 with
        | none => none
        | some (issuer, r4) =>
          match decList decRevocationEntry r4 with
          | none => none
          | some (revoked_keys, r5) =>
            some ({ version, issued_at, next_update, issuer, revoked_keys }, r5)

/-! ## Timestamp validation (timestamp.rs, verification side) -/

/-- `TimestampValidationConfig`. -/
structure TimestampValidationConfig where
  max_clock_skew_seconds : Int
  max_timestamp_age_seconds : Option Int
  require_proof : Bool
  deriving DecidableEq, Repr

/-- The `Default` instance: 300 s skew, no age limit, proof required. -/
def TimestampValidationConfig.default : TimestampValidationConfig where
  max_clock_skew_seconds := 300
  max_timestamp_age_seconds := none
  require_proof := true

/-- `windows(pat.len()).any(|w| w == pat)`. -/
def hasWindow (pat : Bytes) : Bytes → Bool
  | [] => false
  | b :: rest => pat.isPrefixOf (b :: rest) || hasWindow pat rest

/-- The 13-byte DER encoding of the RFC 3161 OID
1.2.840.113549.1.9.16.1.4. -/
def RFC3161_OID : Bytes :=
  [0x06, 0x0B, 0x2A, 0x86, 0x48, 0x86, 0xF7, 0x0D, 0x01, 0x09, 0x10, 0x01, 0x04]

/-- `validate_rfc3161_proof_format` (timestamp.rs lines 43-84): base64
decode, size window 100 bytes to 64 KiB, then the purely informational
ASN.1-tag and OID findings. -/
def validate_rfc3161_proof_format (proof : Bytes) :
    Except Unit (Bool × Nat × Bool) :=
  match b64Decode proof with
  | none => .error ()
  | some proof_bytes =>
    if proof_bytes.length < 100 then .error ()
    else if proof_bytes.length > 64 * 1024 then .error ()
    else
      .ok (proof_bytes.headD 0 == 0x30, proof_bytes.length, hasWindow RFC3161_OID proof_bytes)

/-- `verify_timestamp_token_with_config` (timestamp.rs lines 280-377):
only missing/invalid proofs under `require_proof`, over-age
timestamps, and unknown algorithms are errors; skew and structural
findings are warnings.  Returns `Ok(true)` when no error accrued. -/
def verify_timestamp_token_with_config (token : TimestampToken) (_data : Bytes)
    (config : TimestampValidationConfig) (now : Int) : Except TdfError Bool :=
  let ageError : Bool :=
    match config.max_timestamp_age_seconds with
    | some max_age => decide (now - token.time > max_age)
    | none => false
  let hasError : Bool :=
    if token.algorithm == ascii "manual" then ageError
    else if token.algorithm == ascii "rfc3161" then
      (if token.proof.isEmpty then config.require_proof
       else
         match validate_rfc3161_proof_format token.proof with
         | .ok _ => false
         | .error _ => config.require_proof) || ageError
    else true
  if hasError then .error .signatureFailure else .ok true

/-! ## Archive pipeline (archive.rs) -/

def MANIFEST_FILE : Bytes := ascii "manifest.cbor"
def CONTENT_FILE : Bytes := ascii "content.cbor"
def STYLES_FILE : Bytes := ascii "styles.css"
def LAYOUT_FILE : Bytes := ascii "layout.cbor"
def DATA_FILE : Bytes := ascii "data.json"
def HASHES_FILE : Bytes := ascii "hashes.bin"
def SIGNATURES_FILE : Bytes := ascii "signatures.cbor"
def REVOCATION_FILE : Bytes := ascii "revocation.cbor"
def ASSETS_IMAGES_DIR : Bytes := ascii "assets/images/"
def ASSETS_FONTS_DIR : Bytes := ascii "assets/fonts/"

/-- The on-disk container: the entry list in write order plus the
archive's on-disk byte size (`metadata.len()`; the deflate-compressed
size is produced by the external zip crate, so it is a field rather
than a function of the entries).  An entry's uncompressed size is its
data length. -/
structure ZipArchive where
  file_size : Nat
  entries : List (Bytes × Bytes)
  deriving DecidableEq, Repr

/-- `zip.by_name`: first entry with the given name. -/
def ZipArchive.by_name (ar : ZipArchive) (name : Bytes) : Option Bytes :=
  match ar.entries.find? (fun e => e.1 == name) with
  | none => none
  | some e => some e.2

/-- Parse a complete serialized value (`serde_cbor::from_slice`
consumes the whole slice). -/
def parseAll {α : Type} (dec : Bytes → Option (α × Bytes)) (bs : Bytes) : Option α :=
  match dec bs with
  | some (a, []) => some a
  | _ => none

/-- The asset name transformation of the build loop (archive.rs lines
251-266): keep paths already under the asset directories, route images
and fonts by extension, and prefix everything else with "assets/". -/
def assetFullPath (path : Bytes) : Bytes :=
  if ASSETS_IMAGES_DIR.isPrefixOf path then path
  else if ASSETS_FONTS_DIR.isPrefixOf path then path
  else if (ascii ".webp").isSuffixOf path ∨ (ascii ".avif").isSuffixOf path
      ∨ (ascii ".png").isSuffixOf path then ASSETS_IMAGES_DIR ++ path
  else if (ascii ".woff2").isSuffixOf path then ASSETS_FONTS_DIR ++ path
  else ascii "assets/" ++ path

/-- The Merkle component map of the build path (archive.rs lines
107-124): manifest/content/styles, optional layout and data, then one
"asset:path" entry per asset. -/
def buildComponents (manifest_bytes content_bytes styles_bytes : Bytes)
    (layout_bytes data_bytes : Option Bytes) (assets : List (Bytes × Bytes)) : ComponentMap :=
  let m0 := insertComp [] (ascii "manifest") manifest_bytes
  let m1 := insertComp m0 (ascii "content") content_bytes
  let m2 := insertComp m1 (ascii "styles") styles_bytes
  let m3 := match layout_bytes with
    | some l => insertComp m2 (ascii "layout") l
    | none => m2
  let m4 := match data_bytes with
    | some d => insertComp m3 (ascii "data") d
    | none => m3
  assets.foldl (fun m p => insertComp m (ascii "asset:" ++ p.1) p.2) m4

/-- `ArchiveBuilder::build_with_timestamp` (archive.rs lines 75-271):
validate, serialize, hash the component map built from the
pre-update manifest bytes, set the manifest root hash to the root's
hex, sign if a key and signer identity are supplied, check the
estimated total size, then emit the entry list (the written manifest
carries the root hash; the hashed one is the original). -/
def build_with_timestamp (P : SigPrims) (document : Document)
    (assets : List (Bytes × Bytes)) (revocation_list : Option RevocationList)
    (security_config : SecurityConfig) (ed25519_key : Option Bytes)
    (secp256k1_key : Option Bytes) (signer_id : Option Bytes) (signer_name : Option Bytes)
    (signature_algorithm : Option SignatureAlgorithm)
    (timestamp_provider : Option TimestampProvider) (now : Int) :
    Except TdfError (List (Bytes × Bytes)) :=
  match document.validate with
  | .error e => .error e
  | .ok _ =>
    let manifest_bytes := encManifest document.manifest
    let content_bytes := encContent document.content
    let styles_bytes := document.styles
    let layout_bytes := document.layout.map encLayout
    let data_bytes := document.data.map encJson
    let components :=
      buildComponents manifest_bytes content_bytes styles_bytes layout_bytes data_bytes assets
    let algorithm : HashAlgorithm :=
      match document.manifest.integrity.algorithm with
      | .Sha256 => .sha256
      | .Blake3 => .blake3
    match compute_root P algorithm true components with
    | .error e => .error e
    | .ok (sorted_leaves, root_hash) =>
      let updated_manifest :=
        { document.manifest with
            integrity := { document.manifest.integrity with root_hash := hexEncode root_hash } }
      let algo := signature_algorithm.getD
        (if secp256k1_key.isSome then .Secp256k1 else .Ed25519)
      let signatures : List DocumentSignature :=
        match signer_id, signer_name with
        | some id, some name =>
          (match algo with
           | .Ed25519 =>
             match ed25519_key with
             | some key =>
               [sign_ed25519_with_timestamp P key root_hash id name .Full
                 timestamp_provider now]
             | none => []
           | .Secp256k1 =>
             match secp256k1_key with
             | some key => [sign_secp256k1 P key root_hash id name .Full now]
             | none => []
           | .RsaPss => [])
        | _, _ => []
      let signature_block : SignatureBlock := { signatures }
      let signatures_bytes := encSignatureBlock signature_block
      let tree : MerkleTree :=
        { algorithm, root_hash, leaf_hashes := sorted_leaves, use_domain_separators := true }
      match tree.to_binary with
      | .error e => .error e
      | .ok hashes_binary =>
        let estimated_size := manifest_bytes.length + content_bytes.length
          + styles_bytes.length + (layout_bytes.map List.length).getD 0
          + (data_bytes.map List.length).getD 0
          + (assets.map (fun p => p.2.length)).sum
          + hashes_binary.length + signatures_bytes.length
          + (revocation_list.map (fun r => (encRevocationList r).length)).getD 0
        match security_config.check_size estimated_size with
        | .error e => .error e
        | .ok _ =>
          .ok ([(MANIFEST_FILE, encManifest updated_manifest),
                (CONTENT_FILE, content_bytes),
                (STYLES_FILE, styles_bytes)]
            ++ (match layout_bytes with
                | some l => [(LAYOUT_FILE, l)]
                | none => [])
            ++ (match data_bytes with
                | some d => [(DATA_FILE, d)]
                | none => [])
            ++ [(HASHES_FILE, hashes_binary), (SIGNATURES_FILE, signatures_bytes)]
            ++ (match revocation_list with
                | some r => [(REVOCATION_FILE, encRevocationList r)]
                | none => [])
            ++ assets.map (fun p => (assetFullPath p.1, p.2)))

/-- `VerificationReport`; warnings are recorded per failing signature
as the signer id. -/
structure VerificationReport where
  integrity_valid : Bool
  root_hash : Bytes
  signature_count : Nat
  document : Document
  timestamp_warnings : List Bytes
  deriving DecidableEq, Repr

/-- First phase of `ArchiveReader::verify_with_config` (archive.rs
lines 474-491): archive size, per-entry size sweep, and the
decompression-ratio gate. -/
def verifySizeGates (security_config : SecurityConfig) (ar : ZipArchive) :
    Except TdfError Unit :=
  match security_config.check_size ar.file_size with
  | .error e => .error e
  | .ok _ =>
    match ar.entries.findSome? (fun e =>
        match security_config.check_file_size e.2.length with
        | .error err => some err
        | .ok _ => none) with
    | some err => .error err
    | none =>
      let total_uncompressed := (ar.entries.map (fun e => e.2.length)).sum
      security_config.check_decompression ar.file_size total_uncompressed

/-- The seed component map of the verify path (archive.rs lines
528-553): manifest (hashed with cleared root), content, styles, then
the optional layout and data entries. -/
def verifySeed (mbh cb sb : Bytes) (lb db : Option Bytes) : ComponentMap :=
  let m0 := insertComp [] (ascii "manifest") mbh
  let m1 := insertComp m0 (ascii "content") cb
  let m2 := insertComp m1 (ascii "styles") sb
  let m3 := match lb with
    | some l => insertComp m2 (ascii "layout") l
    | none => m2
  match db with
  | some d => insertComp m3 (ascii "data") d
  | none => m3

/-- `ArchiveReader::verify_with_config` (archive.rs lines 469-645):
size gates, raw component reconstruction with the manifest's stored
root hash cleared, Merkle re-verification with a constant-time
comparison, signature-count and per-signature timestamp validation
(errors demoted to warnings), and the report.  Note that no
`check_file_count`, `check_merkle_version` or
`check_signature_version` call appears in this path. -/
def verify_with_config (P : SigPrims) (ar : ZipArchive) (security_config : SecurityConfig)
    (now : Int) : Except TdfError VerificationReport :=
  match verifySizeGates security_config ar with
  | .error e => .error e
  | .ok _ =>
    match ar.by_name MANIFEST_FILE with
    | none => .error .missingFile
    | some manifest_bytes =>
      match parseAll decManifest manifest_bytes with
      | none => .error .cborError
      | some manifest0 =>
        let manifest :=
          { manifest0 with integrity := { manifest0.integrity with root_hash := [] } }
        let manifest_bytes_for_hash := encManifest manifest
        match ar.by_name CONTENT_FILE with
        | none => .error .missingFile
        | some content_bytes =>
          match ar.by_name STYLES_FILE with
          | none => .error .missingFile
          | some styles_bytes =>
            let m4 := verifySeed manifest_bytes_for_hash content_bytes styles_bytes
              (ar.by_name LAYOUT_FILE) (ar.by_name DATA_FILE)
            let components := ar.entries.foldl (fun m e =>
              if (ascii "assets/").isPrefixOf e.1 then
                insertComp m (ascii "asset:" ++ e.1) e.2
              else m) m4
            match ar.by_name HASHES_FILE with
            | none => .error .missingFile
            | some hashes_bytes =>
              match MerkleTree.from_binary hashes_bytes with
              | .error e => .error e
              | .ok merkle_tree =>
                match ar.by_name SIGNATURES_FILE with
                | none => .error .missingFile
                | some signatures_bytes =>
                  match parseAll decSignatureBlock signatures_bytes with
                  | none => .error .cborError
                  | some signature_block =>
                    match
                      (match ar.by_name REVOCATION_FILE with
                       | some revocation_bytes =>
                         match parseAll decRevocationList revocation_bytes with
                         | none => .error .invalidDocument
                         | some list => .ok (some list)
                       | none => .ok none : Except TdfError (Option RevocationList)) with
                    | .error e => .error e
                    | .ok _internal_revocation =>
                      match merkle_tree.verify P components with
                      | .error e => .error e
                      | .ok integrity_valid =>
                        let root_hash := merkle_tree.root_hash
                        let timestamp_config := TimestampValidationConfig.default
                        let timestamp_warnings :=
                          signature_block.signatures.filterMap (fun sig =>
                            let token : TimestampToken :=
                              { time := sig.timestamp.time
                                authority := sig.timestamp.authority.getD (ascii "manual")
                                proof := sig.timestamp.proof.getD []
                                algorithm :=
                                  if sig.timestamp.proof.isSome then ascii "rfc3161"
                                  else ascii "manual" }
                            match verify_timestamp_token_with_config token root_hash
                                timestamp_config now with
                            | .error _ => some sig.signer.id
                            | .ok _ => none)
                        match
                          (match components.find? (fun p => p.1 == ascii "content") with
                           | none => .error .cborError
                           | some p =>
                             match parseAll decContent p.2 with
                             | none => .error .cborError
                             | some content => .ok content :
                            Except TdfError DocumentContent) with
                        | .error e => .error e
                        | .ok content =>
                          let styles :=
                            match components.find? (fun p => p.1 == ascii "styles") with
                            | some p => p.2
                            | none => []
                          .ok { integrity_valid
                                root_hash := hexEncode root_hash
                                signature_count := signature_block.signatures.length
                                document :=
                                  { manifest, content, styles, layout := none, data := none }
                                timestamp_warnings }

/-! ## A concrete primitive instance

`demoPrims` is an executable stand-in instance of the primitive
bundle, used by witnesses and counterexamples: each hash is an
injective tagged copy of its input, and the signature schemes are the
perfect deterministic schemes over it (signatures are 64 bytes, as
`verify_ed25519` requires).  Theorems about the pipeline hold for
every instance; witnesses evaluate at this one. -/

/-- A 32-byte digest stand-in: each output byte is a weighted sum of
the input bytes at its residue class (tagged per hash function). -/
def mix32 (tag : Nat) (m : Bytes) : Bytes :=
  (List.range 32).map (fun i =>
    (tag + m.length
      + (m.enum.foldl (fun acc p => if p.1 % 32 == i then acc + (p.1 + 1) * p.2 else acc) 0))
      % 256)

def demoPrims : SigPrims where
  sha256 := fun m => mix32 0 m
  hmacSha256 := fun key m => mix32 1 (encStr key ++ m)
  sha3x256 := fun m => mix32 2 m
  sha3x512trunc := fun m => mix32 3 m
  blake3 := fun m => mix32 4 m
  edSign := fun sk m => padTo64 (encStr sk ++ m)
  edPub := fun sk => sk
  edVerify := fun pk m s => s == padTo64 (encStr pk ++ m)
  secpSign := fun sk m => encStr sk ++ m
  secpPub := fun sk => sk
  secpVerify := fun pk m s => s == encStr pk ++ m

/-- The hash primitives produce 32-byte digests (true of SHA-256,
SHA3-256, truncated SHA3-512 and BLAKE3); the binary Merkle format
stores hashes in 32-byte cells, so the round-trip theorem assumes
it. -/
def HashLen32 (P : SigPrims) : Prop :=
  (∀ key m, (P.hmacSha256 key m).length = 32)
    ∧ (∀ m, (P.sha3x256 m).length = 32)
    ∧ (∀ m, (P.sha3x512trunc m).length = 32)
    ∧ (∀ m, (P.blake3 m).length = 32)

/-! ## Concrete example values

Inputs used by witnesses and counterexamples. -/

/-- A minimal valid document: empty stored root hash, one section. -/
def exampleDoc : Document where
  manifest :=
    { schema_version := ascii "0.1.0"
      document :=
        { id := ascii "doc-1", title := ascii "Q2 2025 Financial Report"
          language := ascii "en", created := 0, modified := 0 }
      authors := []
      classification := none
      integrity := { root_hash := [], algorithm := .Sha256 } }
  content := { sections := [{ id := ascii "s1", title := none, content := [] }] }
  styles := []
  layout := none
  data := none

/-- The same document with a stale, non-empty stored root hash; it
still passes `Document::validate`. -/
def staleDoc : Document :=
  { exampleDoc with
      manifest :=
        { exampleDoc.manifest with
            integrity := { exampleDoc.manifest.integrity with root_hash := ascii "ff" } } }

/-- A 32-byte example Ed25519 signing key. -/
def exampleSk : Bytes :=
  List.replicate 32 7

/-- Build the example archive (no signing, no assets, default
policy). -/
def exampleBuild (d : Document) : Except TdfError (List (Bytes × Bytes)) :=
  build_with_timestamp demoPrims d [] none SecurityConfig.default none none none none none
    none 0

/-- Wrap built entries as an on-disk archive of a given size. -/
def archOf (r : Except TdfError (List (Bytes × Bytes))) (file_size : Nat) : ZipArchive :=
  { file_size, entries := r.toOption.getD [] }

/-- The example archive with its `hashes.bin` replaced by a version-1
Merkle binary (magic, version 1, sha256 tag, zero leaves, zero
root). -/
def v1Archive : ZipArchive :=
  let v1bytes := MERKLE_MAGIC ++ [MERKLE_VERSION_LEGACY, 0x01] ++ be32 0
    ++ List.replicate 32 0
  { file_size := 1000
    entries := (archOf (exampleBuild exampleDoc) 1000).entries.map (fun e =>
      if e.1 == HASHES_FILE then (e.1, v1bytes) else e) }

/-- The example archive padded with 996 empty junk entries, for a
total of 1001 entries. -/
def junkArchive : ZipArchive :=
  { file_size := 1000
    entries := (archOf (exampleBuild exampleDoc) 1000).entries
      ++ (List.range 996).map (fun i => (List.replicate (i + 1) 122, ([] : Bytes))) }

/-- A `hashes.bin` declaring `u32::MAX` leaves. -/
def u32MaxInput : Bytes :=
  MERKLE_MAGIC ++ [MERKLE_VERSION, 0x01] ++ [255, 255, 255, 255] ++ List.replicate 32 0

/-- The 12-byte fixed tail of a canonical revocation-entry segment at
time 0 with reason key-compromise: ":" be64(0) ":" 0x01 ";". -/
def segTail : Bytes :=
  ascii ":" ++ be64i 0 ++ ascii ":" ++ [1] ++ ascii ";"

/-- Entry whose canonical segment is "a" ++ segTail ++ "b" ++ segTail. -/
def entryE : RevocationEntry where
  signer_id := ascii "a" ++ segTail ++ ascii "b"
  revoked_at := 0
  reason := .KeyCompromise
  issued_at := none
  authority := none

/-- The same entry with its signer id mutated to "b" ++ segTail ++ "a";
the two ids embed the separator pattern so that the whole sorted
canonical stream is unchanged. -/
def entryE2 : RevocationEntry :=
  { entryE with signer_id := ascii "b" ++ segTail ++ ascii "a" }

/-- The companion entry whose segment is the palindrome-completing
"a" segTail "b" segTail "a" segTail. -/
def entryF : RevocationEntry where
  signer_id := ascii "a" ++ segTail ++ ascii "b" ++ segTail ++ ascii "a"
  revoked_at := 0
  reason := .KeyCompromise
  issued_at := none
  authority := none

/-- The example revocation authority bound to `exampleSk`. -/
def exampleAuthority : AuthorityInfo where
  id := ascii "did:web:authority.example.com"
  name := ascii "Authority"
  public_key := hexEncode (demoPrims.edPub exampleSk)
  url := none

/-- The honestly signed list over entries `[entryE, entryF]`. -/
def signedListE : Except TdfError SignedRevocationList :=
  SignedRevocationList.new demoPrims [entryE, entryF] exampleAuthority exampleSk none 0

/-- The signed list with `entryE`'s signer id mutated after signing. -/
def signedListMutated : SignedRevocationList :=
  match signedListE with
  | .ok l => { l with entries := [entryE2, entryF] }
  | .error _ => { version := 0, entries := [], authority := exampleAuthority, issued_at := 0
                  next_update := none, signature := [] }

/-- A revocation entry for signer "x" at time 5. -/
def revEntryX : RevocationEntry where
  signer_id := ascii "x"
  revoked_at := 5
  reason := .KeyCompromise
  issued_at := none
  authority := none

/-- A revocation list containing only `revEntryX`. -/
def revListX : RevocationList where
  version := 1
  issued_at := 0
  next_update := none
  issuer := none
  revoked_keys := [revEntryX]

/-- A manager holding `revListX`. -/
def mgrX : RevocationManager where
  lists := [revListX]
  signed_lists := []
  trusted_authorities := []

/-- A signature by "x" over root "r" at a given time, with the demo
scheme. -/
def sigXAt (t : Int) : DocumentSignature :=
  sign_ed25519 demoPrims exampleSk (ascii "r") (ascii "x") (ascii "X") .Full t

/-- A section scope whose ids are "b" and "c". -/
def scopeBC : SignatureScope :=
  SignatureScope.Sections [ascii "b", ascii "c"]

/-- A different scope — the single id "b,c" — with the same canonical
string "sections:b,c". -/
def scopeBCcomma : SignatureScope :=
  SignatureScope.Sections [ascii "b,c"]

/-- A v2 signature over scope `scopeBC`. -/
def sigBC : DocumentSignature :=
  sign_ed25519 demoPrims exampleSk (ascii "r") (ascii "s") (ascii "S") scopeBC 0

/-- `sigBC` with its scope mutated to `scopeBCcomma` after signing. -/
def sigBCmut : DocumentSignature :=
  { sigBC with scope := scopeBCcomma }

/-- A fresh session whose required-signer list holds "a" twice. -/
def dupSession : MultiPartySigningSession :=
  MultiPartySigningSession.new (ascii "r") .Unordered [ascii "a", ascii "a"] 0

/-- A signature by signer "a" for the session counterexample. -/
def sigDupA : DocumentSignature :=
  sign_ed25519 demoPrims exampleSk (ascii "r") (ascii "a") (ascii "A") .Full 0

/-- The build path's conversion from the manifest's document hash
algorithm to the Merkle algorithm (archive.rs lines 126-129). -/
def buildAlgorithm (m : Manifest) : HashAlgorithm :=
  match m.integrity.algorithm with
  | .Sha256 => .sha256
  | .Blake3 => .blake3

/-- The entry-list shape `build_with_timestamp` emits: the three fixed
files, optional layout and data, hashes and signatures, optional
revocation, then the assets under their full archive paths. -/
def builtEntries (mb cb sb : Bytes) (lb db : Option Bytes) (hb gb : Bytes)
    (rv : Option Bytes) (assets : List (Bytes × Bytes)) : List (Bytes × Bytes) :=
  [(MANIFEST_FILE, mb), (CONTENT_FILE, cb), (STYLES_FILE, sb)]
    ++ (match lb with
        | some l => [(LAYOUT_FILE, l)]
        | none => [])
    ++ (match db with
        | some d => [(DATA_FILE, d)]
        | none => [])
    ++ [(HASHES_FILE, hb), (SIGNATURES_FILE, gb)]
    ++ (match rv with
        | some r => [(REVOCATION_FILE, r)]
        | none => [])
    ++ assets.map (fun p => (assetFullPath p.1, p.2))

/-! # Lemmas and theorems -/

/-! ## Byte-order lemmas -/

theorem leBytes_total (a b : Bytes) : leBytes a b = true ∨ leBytes b a = true := by
  induction a generalizing b with
  | nil => exact Or.inl rfl
  | cons x xs ih =>
    cases b with
    | nil => exact Or.inr rfl
    | cons y ys =>
      by_cases hxy : x < y
      · exact Or.inl (by simp [leBytes, hxy])
      · by_cases hyx : y < x
        · exact Or.inr (by simp [leBytes, hyx])
        · have hxy2 : x = y := Nat.le_antisymm (Nat.not_lt.mp hyx) (Nat.not_lt.mp hxy)
          subst hxy2
          rcases ih ys with h | h
          · exact Or.inl (by simp [leBytes, h])
          · exact Or.inr (by simp [leBytes, h])

theorem leBytes_trans (a b c : Bytes) (hab : leBytes a b = true) (hbc : leBytes b c = true) :
    leBytes a c = true := by
  induction a generalizing b c with
  | nil => rfl
  | cons x xs ih =>
    cases b with
    | nil => simp [leBytes] at hab
    | cons y ys =>
      cases c with
      | nil => simp [leBytes] at hbc
      | cons z zs =>
        simp only [leBytes] at hab hbc ⊢
        by_cases hxy : x < y
        · by_cases hyz : y < z
          · simp [Nat.lt_trans hxy hyz]
          · simp only [hyz, if_false] at hbc
            by_cases hyz2 : y = z
            · subst hyz2; simp [hxy]
            · simp [hyz2] at hbc
        · simp only [hxy, if_false] at hab
          by_cases hxy2 : x = y
          · subst hxy2
            simp only [if_neg hxy] at hab
            by_cases hyz : x < z
            · simp [hyz]
            · simp only [hyz, if_false] at hbc ⊢
              by_cases hyz2 : x = z
              · simp only [hyz2, if_pos rfl] at hbc ⊢
                subst hyz2
                exact ih ys zs hab hbc
              · simp [hyz2] at hbc
          · simp [hxy2] at hab

theorem leBytes_antisymm (a b : Bytes) (hab : leBytes a b = true) (hba : leBytes b a = true) :
    a = b := by
  induction a generalizing b with
  | nil =>
    cases b with
    | nil => rfl
    | cons y ys => simp [leBytes] at hba
  | cons x xs ih =>
    cases b with
    | nil => simp [leBytes] at hab
    | cons y ys =>
      simp only [leBytes] at hab hba
      by_cases hxy : x < y
      · have : ¬ y < x := Nat.lt_asymm hxy
        simp [this, Nat.ne_of_gt hxy] at hba
      · by_cases hxy2 : x = y
        · subst hxy2
          simp only [hxy, if_neg, if_pos rfl] at hab hba
          rw [ih ys hab hba]
        · simp [hxy, hxy2] at hab

theorem sortBytes_perm (l : List Bytes) : (sortBytes l).Perm l :=
  List.perm_insertionSort _ l

theorem sortBytes_sorted (l : List Bytes) :
    (sortBytes l).Sorted (fun a b => leBytes a b = true) := by
  haveI : IsTotal Bytes (fun a b => leBytes a b = true) := ⟨leBytes_total⟩
  haveI : IsTrans Bytes (fun a b => leBytes a b = true) := ⟨leBytes_trans⟩
  exact List.sorted_insertionSort _ l

/-- Sorting is invariant under permutation of the input: the heart of
Merkle order independence. -/
theorem sortBytes_congr (l l2 : List Bytes) (h : l.Perm l2) : sortBytes l = sortBytes l2 := by
  haveI : IsAntisymm Bytes (fun a b => leBytes a b = true) := ⟨leBytes_antisymm⟩
  exact List.eq_of_perm_of_sorted
    (((sortBytes_perm l).trans h).trans (sortBytes_perm l2).symm)
    (sortBytes_sorted l) (sortBytes_sorted l2)

/-! ## Codec round-trip lemmas -/

theorem dig255_lt (fuel n d : Nat) (h : d ∈ dig255 fuel n) : d < 255 := by
  induction fuel generalizing n with
  | zero =>
    cases n with
    | zero => simp [dig255] at h
    | succ m => simp [dig255] at h
  | succ f ih =>
    cases n with
    | zero => simp [dig255] at h
    | succ m =>
      simp only [dig255, List.mem_cons] at h
      rcases h with h | h
      · subst h; exact Nat.mod_lt _ (by norm_num)
      · exact ih _ h

theorem ofDigits_dig255 (fuel n : Nat) (h : n ≤ fuel) :
    Nat.ofDigits 255 (dig255 fuel n) = n := by
  induction fuel generalizing n with
  | zero =>
    cases n with
    | zero => simp [dig255, Nat.ofDigits]
    | succ m => omega
  | succ f ih =>
    cases n with
    | zero => simp [dig255, Nat.ofDigits]
    | succ m =>
      have hdiv : (m + 1) / 255 ≤ f := by
        have h1 : (m + 1) / 255 ≤ m + 1 := Nat.div_le_self _ _
        have h2 : (m + 1) / 255 < m + 1 := Nat.div_lt_self (Nat.succ_pos m) (by norm_num)
        omega
      simp only [dig255, Nat.ofDigits_cons, ih _ hdiv]
      omega

theorem decNatAux_append (ds : List Nat) (rest : Bytes) (h : ∀ d ∈ ds, d < 255) :
    decNatAux (ds ++ 255 :: rest) = some (ds, rest) := by
  induction ds with
  | nil => simp [decNatAux]
  | cons d ds ih =>
    have hd : d < 255 := h d (List.mem_cons_self _ _)
    have hne : ¬ d = 255 := by omega
    simp only [List.cons_append, decNatAux, if_neg hne, List.append_eq,
      ih (fun x hx => h x (List.mem_cons_of_mem _ hx))]

theorem decNat_enc (n : Nat) (rest : Bytes) : decNat (encNat n ++ rest) = some (n, rest) := by
  simp only [encNat, decNat, List.append_assoc, List.cons_append, List.nil_append,
    decNatAux_append (dig255 n n) rest (fun d hd => dig255_lt n n d hd),
    ofDigits_dig255 n n (Nat.le_refl n)]

theorem decInt_enc (i : Int) (rest : Bytes) : decInt (encInt i ++ rest) = some (i, rest) := by
  cases i with
  | ofNat n => simp [encInt, decInt, decNat_enc]
  | negSucc n => simp [encInt, decInt, decNat_enc]

theorem decStr_enc (s : Bytes) (rest : Bytes) : decStr (encStr s ++ rest) = some (s, rest) := by
  simp only [encStr, decStr, List.append_assoc, decNat_enc]
  simp [List.take_left, List.drop_left]

theorem decBool_enc (b : Bool) (rest : Bytes) : decBool (encBool b ++ rest) = some (b, rest) := by
  cases b <;> simp [encBool, decBool]

theorem decOption_enc {α : Type} {enc : α → Bytes} {dec : Bytes → Option (α × Bytes)}
    (h : ∀ a rest, dec (enc a ++ rest) = some (a, rest)) (o : Option α) (rest : Bytes) :
    decOption dec (encOption enc o ++ rest) = some (o, rest) := by
  cases o with
  | none => simp [encOption, decOption]
  | some a => simp [encOption, decOption, h]

theorem decTimes_enc {α : Type} {enc : α → Bytes} {dec : Bytes → Option (α × Bytes)}
    (h : ∀ a rest, dec (enc a ++ rest) = some (a, rest)) (xs : List α) (rest : Bytes) :
    decTimes dec xs.length (xs.foldr (fun x acc => enc x ++ acc) [] ++ rest) =
      some (xs, rest) := by
  induction xs with
  | nil => simp [decTimes]
  | cons x xs ih => simp [decTimes, List.append_assoc, h, ih]

theorem decList_enc {α : Type} {enc : α → Bytes} {dec : Bytes → Option (α × Bytes)}
    (h : ∀ a rest, dec (enc a ++ rest) = some (a, rest)) (xs : List α) (rest : Bytes) :
    decList dec (encList enc xs ++ rest) = some (xs, rest) := by
  simp only [encList, decList, List.append_assoc, decNat_enc]
  exact decTimes_enc h xs rest

theorem decProd_enc {α β : Type} {encA : α → Bytes} {decA : Bytes → Option (α × Bytes)}
    {encB : β → Bytes} {decB : Bytes → Option (β × Bytes)}
    (hA : ∀ a rest, decA (encA a ++ rest) = some (a, rest))
    (hB : ∀ b rest, decB (encB b ++ rest) = some (b, rest)) (p : α × β) (rest : Bytes) :
    decProd decA decB (encProd encA encB p ++ rest) = some (p, rest) := by
  cases p with
  | mk a b => simp [encProd, decProd, List.append_assoc, hA, hB]

theorem parseAll_enc {α : Type} {enc : α → Bytes} {dec : Bytes → Option (α × Bytes)}
    (h : ∀ a rest, dec (enc a ++ rest) = some (a, rest)) (a : α) :
    parseAll dec (enc a) = some a := by
  have h2 := h a []
  rw [List.append_nil] at h2
  simp [parseAll, h2]

theorem decDocHashAlgorithm_enc (a : DocHashAlgorithm) (rest : Bytes) :
    decDocHashAlgorithm (encDocHashAlgorithm a ++ rest) = some (a, rest) := by
  cases a <;> simp [encDocHashAlgorithm, decDocHashAlgorithm]

theorem decClassification_enc (a : Classification) (rest : Bytes) :
    decClassification (encClassification a ++ rest) = some (a, rest) := by
  cases a <;> simp [encClassification, decClassification]

theorem decIntegrityBlock_enc (a : IntegrityBlock) (rest : Bytes) :
    decIntegrityBlock (encIntegrityBlock a ++ rest) = some (a, rest) := by
  cases a
  simp [encIntegrityBlock, decIntegrityBlock, List.append_assoc, decStr_enc,
    decDocHashAlgorithm_enc]

theorem decDocumentMeta_enc (a : DocumentMeta) (rest : Bytes) :
    decDocumentMeta (encDocumentMeta a ++ rest) = some (a, rest) := by
  cases a
  simp [encDocumentMeta, decDocumentMeta, List.append_assoc, decStr_enc, decInt_enc]

theorem decAuthor_enc (a : Author) (rest : Bytes) :
    decAuthor (encAuthor a ++ rest) = some (a, rest) := by
  cases a
  simp [encAuthor, decAuthor, List.append_assoc, decStr_enc, decOption_enc decStr_enc]

theorem decManifest_enc (a : Manifest) (rest : Bytes) :
    decManifest (encManifest a ++ rest) = some (a, rest) := by
  cases a
  simp [encManifest, decManifest, List.append_assoc, decStr_enc, decDocumentMeta_enc,
    decList_enc decAuthor_enc, decOption_enc decClassification_enc, decIntegrityBlock_enc]

theorem decCellType_enc (a : CellType) (rest : Bytes) :
    decCellType (encCellType a ++ rest) = some (a, rest) := by
  cases a <;> simp [encCellType, decCellType]

theorem decCellValue_enc (a : CellValue) (rest : Bytes) :
    decCellValue (encCellValue a ++ rest) = some (a, rest) := by
  cases a <;>
    simp [encCellValue, decCellValue, List.append_assoc, decStr_enc, decNat_enc]

theorem decTableColumn_enc (a : TableColumn) (rest : Bytes) :
    decTableColumn (encTableColumn a ++ rest) = some (a, rest) := by
  cases a
  simp [encTableColumn, decTableColumn, List.append_assoc, decStr_enc, decCellType_enc,
    decOption_enc decStr_enc]

theorem decTableRow_enc (a : TableRow) (rest : Bytes) :
    decTableRow (encTableRow a ++ rest) = some (a, rest) := by
  cases a
  simp [encTableRow, decTableRow,
    decList_enc (decProd_enc decStr_enc decCellValue_enc)]

theorem decDiagramType_enc (a : DiagramType) (rest : Bytes) :
    decDiagramType (encDiagramType a ++ rest) = some (a, rest) := by
  cases a <;> simp [encDiagramType, decDiagramType]

theorem decDiagramShape_enc (a : DiagramShape) (rest : Bytes) :
    decDiagramShape (encDiagramShape a ++ rest) = some (a, rest) := by
  cases a <;> simp [encDiagramShape, decDiagramShape]

theorem decDiagramNode_enc (a : DiagramNode) (rest : Bytes) :
    decDiagramNode (encDiagramNode a ++ rest) = some (a, rest) := by
  cases a
  simp [encDiagramNode, decDiagramNode, List.append_assoc, decStr_enc,
    decOption_enc decDiagramShape_enc, decOption_enc decStr_enc]

theorem decEdgeType_enc (a : EdgeType) (rest : Bytes) :
    decEdgeType (encEdgeType a ++ rest) = some (a, rest) := by
  cases a <;> simp [encEdgeType, decEdgeType]

theorem decDiagramEdge_enc (a : DiagramEdge) (rest : Bytes) :
    decDiagramEdge (encDiagramEdge a ++ rest) = some (a, rest) := by
  cases a
  simp [encDiagramEdge, decDiagramEdge, List.append_assoc, decStr_enc, decEdgeType_enc,
    decOption_enc decStr_enc]

theorem decLayoutDirection_enc (a : LayoutDirection) (rest : Bytes) :
    decLayoutDirection (encLayoutDirection a ++ rest) = some (a, rest) := by
  cases a <;> simp [encLayoutDirection, decLayoutDirection]

theorem decLayoutSpacing_enc (a : LayoutSpacing) (rest : Bytes) :
    decLayoutSpacing (encLayoutSpacing a ++ rest) = some (a, rest) := by
  cases a <;> simp [encLayoutSpacing, decLayoutSpacing]

theorem decDiagramLayout_enc (a : DiagramLayout) (rest : Bytes) :
    decDiagramLayout (encDiagramLayout a ++ rest) = some (a, rest) := by
  cases a
  simp [encDiagramLayout, decDiagramLayout, List.append_assoc,
    decOption_enc decLayoutDirection_enc, decOption_enc decLayoutSpacing_enc]

set_option maxHeartbeats 1600000 in
theorem decContentBlock_enc (a : ContentBlock) (rest : Bytes) :
    decContentBlock (encContentBlock a ++ rest) = some (a, rest) := by
  cases a <;>
    simp [encContentBlock, decContentBlock, List.append_assoc, decStr_enc, decNat_enc,
      decBool_enc, decOption_enc decStr_enc, decList_enc decStr_enc,
      decOption_enc (decList_enc decStr_enc), decList_enc decTableColumn_enc,
      decList_enc decTableRow_enc, decDiagramType_enc, decList_enc decDiagramNode_enc,
      decList_enc decDiagramEdge_enc, decOption_enc decDiagramLayout_enc,
      decOption_enc decNat_enc]

theorem decSection_enc (a : Section) (rest : Bytes) :
    decSection (encSection a ++ rest) = some (a, rest) := by
  cases a
  simp [encSection, decSection, List.append_assoc, decStr_enc, decOption_enc decStr_enc,
    decList_enc decContentBlock_enc]

theorem decContent_enc (a : DocumentContent) (rest : Bytes) :
    decContent (encContent a ++ rest) = some (a, rest) := by
  cases a
  simp [encContent, decContent, decList_enc decSection_enc]

theorem decSignatureScope_enc (a : SignatureScope) (rest : Bytes) :
    decSignatureScope (encSignatureScope a ++ rest) = some (a, rest) := by
  cases a <;>
    simp [encSignatureScope, decSignatureScope, decList_enc decStr_enc]

theorem decSignatureAlgorithm_enc (a : SignatureAlgorithm) (rest : Bytes) :
    decSignatureAlgorithm (encSignatureAlgorithm a ++ rest) = some (a, rest) := by
  cases a <;> simp [encSignatureAlgorithm, decSignatureAlgorithm]

theorem decSignerInfo_enc (a : SignerInfo) (rest : Bytes) :
    decSignerInfo (encSignerInfo a ++ rest) = some (a, rest) := by
  cases a
  simp [encSignerInfo, decSignerInfo, List.append_assoc, decStr_enc,
    decOption_enc decStr_enc]

theorem decTimestampInfo_enc (a : TimestampInfo) (rest : Bytes) :
    decTimestampInfo (encTimestampInfo a ++ rest) = some (a, rest) := by
  cases a
  simp [encTimestampInfo, decTimestampInfo, List.append_assoc, decInt_enc,
    decOption_enc decStr_enc]

theorem decDocumentSignature_enc (a : DocumentSignature) (rest : Bytes) :
    decDocumentSignature (encDocumentSignature a ++ rest) = some (a, rest) := by
  cases a
  simp [encDocumentSignature, decDocumentSignature, List.append_assoc, decNat_enc,
    decSignerInfo_enc, decTimestampInfo_enc, decSignatureScope_enc,
    decSignatureAlgorithm_enc, decStr_enc]

theorem decSignatureBlock_enc (a : SignatureBlock) (rest : Bytes) :
    decSignatureBlock (encSignatureBlock a ++ rest) = some (a, rest) := by
  cases a
  simp [encSignatureBlock, decSignatureBlock, decList_enc decDocumentSignature_enc]

theorem decRevocationReason_enc (a : RevocationReason) (rest : Bytes) :
    decRevocationReason (encRevocationReason a ++ rest) = some (a, rest) := by
  cases a <;> rfl

theorem decRevocationEntry_enc (a : RevocationEntry) (rest : Bytes) :
    decRevocationEntry (encRevocationEntry a ++ rest) = some (a, rest) := by
  cases a
  simp [encRevocationEntry, decRevocationEntry, List.append_assoc, decStr_enc, decInt_enc,
    decRevocationReason_enc, decOption_enc decInt_enc, decOption_enc decStr_enc]

theorem decRevocationList_enc (a : RevocationList) (rest : Bytes) :
    decRevocationList (encRevocationList a ++ rest) = some (a, rest) := by
  cases a
  simp [encRevocationList, decRevocationList, List.append_assoc, decNat_enc, decInt_enc,
    decOption_enc decInt_enc, decOption_enc decStr_enc, decList_enc decRevocationEntry_enc]

/-! ## Hex lemmas -/

theorem hexDigitVal_hexDigit (n : Nat) (h : n < 16) : hexDigitVal (hexDigit n) = some n := by
  unfold hexDigit hexDigitVal
  by_cases h10 : n < 10
  · simp only [if_pos h10]
    have : 48 ≤ 48 + n ∧ 48 + n ≤ 57 := by omega
    simp only [if_pos this, Option.some.injEq]
    omega
  · simp only [if_neg h10]
    have h1 : ¬ (48 ≤ 87 + n ∧ 87 + n ≤ 57) := by omega
    have h2 : 97 ≤ 87 + n ∧ 87 + n ≤ 102 := by omega
    simp only [if_neg h1, if_pos h2, Option.some.injEq]
    omega

theorem hexDecode_hexEncode (bs : Bytes) (h : ∀ b ∈ bs, b < 256) :
    hexDecode (hexEncode bs) = some bs := by
  induction bs with
  | nil => simp [hexEncode, hexDecode]
  | cons b bs ih =>
    have hb : b < 256 := h b (List.mem_cons_self _ _)
    have hdiv : b / 16 < 16 := by omega
    have hmod : b % 16 < 16 := Nat.mod_lt _ (by norm_num)
    simp only [hexEncode, List.foldr_cons, hexDecode,
      hexDigitVal_hexDigit _ hdiv, hexDigitVal_hexDigit _ hmod]
    rw [show (List.foldr (fun b acc => hexDigit (b / 16) :: hexDigit (b % 16) :: acc) [] bs)
        = hexEncode bs from rfl]
    rw [ih (fun x hx => h x (List.mem_cons_of_mem _ hx))]
    have heq : 16 * (b / 16) + b % 16 = b := by omega
    simp [heq]

theorem hexEncode_length (bs : Bytes) : (hexEncode bs).length = 2 * bs.length := by
  induction bs with
  | nil => simp [hexEncode]
  | cons b bs ih =>
    simp only [hexEncode, List.foldr_cons, List.length_cons]
    rw [show (List.foldr (fun b acc => hexDigit (b / 16) :: hexDigit (b % 16) :: acc) [] bs)
        = hexEncode bs from rfl]
    simp only [List.length_cons] at ih ⊢
    omega

/-! ## Merkle binary lemmas -/

theorem takeChunks32_length (n : Nat) (bs : Bytes) : (takeChunks32 n bs).length = n := by
  induction n generalizing bs with
  | zero => rfl
  | succ m ih => simp [takeChunks32, ih]

theorem checked_mul_some (a b c : Nat) (h : checked_mul a b = some c) :
    c = a * b ∧ a * b < 2 ^ 64 := by
  unfold checked_mul at h
  split at h
  · cases h; exact ⟨rfl, by assumption⟩
  · cases h

theorem checked_add_some (a b c : Nat) (h : checked_add a b = some c) :
    c = a + b ∧ a + b < 2 ^ 64 := by
  unfold checked_add at h
  split at h
  · cases h; exact ⟨rfl, by assumption⟩
  · cases h

/-- Deserialization succeeds only within the declared bounds: the leaf
count is at most `MAX_LEAF_COUNT`, the input is at least the checked
required size, and exactly the declared number of 32-byte leaves is
read. -/
theorem from_binary_ok_bounds (data : Bytes) (t : MerkleTree)
    (h : MerkleTree.from_binary data = .ok t) :
    declaredLeafCount data ≤ 1000000
      ∧ 42 + 32 * declaredLeafCount data ≤ data.length
      ∧ t.leaf_hashes.length = declaredLeafCount data := by
  simp only [MerkleTree.from_binary] at h
  split at h
  · exact Except.noConfusion h
  split at h
  · exact Except.noConfusion h
  split at h
  · exact Except.noConfusion h
  split at h
  · exact Except.noConfusion h
  split at h
  · exact Except.noConfusion h
  split at h
  · exact Except.noConfusion h
  next hcount =>
    split at h
    · exact Except.noConfusion h
    next ls hmul =>
      split at h
      · exact Except.noConfusion h
      next hdr hadd1 =>
        split at h
        · exact Except.noConfusion h
        next req hadd2 =>
          split at h
          · exact Except.noConfusion h
          next hlen =>
            cases h
            have h1 := checked_mul_some _ _ _ hmul
            have h2 := checked_add_some _ _ _ hadd1
            have h3 := checked_add_some _ _ _ hadd2
            have h4 := takeChunks32_length (declaredLeafCount data) (data.drop 42)
            simp only [MAX_LEAF_COUNT] at hcount
            refine ⟨by omega, by omega, h4⟩

/-- C7: Merkle binary deserialization safety: for every input byte
string, `from_binary` returns an error (never panics or over-reads)
when the declared leaf count exceeds 1,000,000 or when the input is
shorter than the checked required size `10 + 32 + count * 32`; the
concrete input declaring `u32::MAX` leaves is rejected with a
SizeExceeded error. -/
theorem c7_from_binary_integer_safety :
    (∀ data : Bytes, 1000000 < declaredLeafCount data →
        ∃ e, MerkleTree.from_binary data = .error e)
    ∧ (∀ data : Bytes, data.length < 42 + 32 * declaredLeafCount data →
        ∃ e, MerkleTree.from_binary data = .error e)
    ∧ (∀ data t, MerkleTree.from_binary data = .ok t →
        t.leaf_hashes.length = declaredLeafCount data
          ∧ 42 + 32 * t.leaf_hashes.length ≤ data.length)
    ∧ MerkleTree.from_binary u32MaxInput = .error .sizeExceeded
    ∧ declaredLeafCount u32MaxInput = 2 ^ 32 - 1 := by
  refine ⟨?_, ?_, ?_, by decide, by decide⟩
  · intro data hc
    cases hfb : MerkleTree.from_binary data with
    | error e => exact ⟨e, rfl⟩
    | ok t =>
      have hb := (from_binary_ok_bounds data t hfb).1
      omega
  · intro data hlen
    cases hfb : MerkleTree.from_binary data with
    | error e => exact ⟨e, rfl⟩
    | ok t =>
      have hb := (from_binary_ok_bounds data t hfb).2.1
      omega
  · intro data t hfb
    have hb := from_binary_ok_bounds data t hfb
    exact ⟨hb.2.2, by omega⟩

/-- Witness for C7 at the `u32::MAX` input. -/
theorem c7_witness :
    ∃ e, MerkleTree.from_binary u32MaxInput = .error e :=
  c7_from_binary_integer_safety.1 u32MaxInput (by decide)

/-! ## C8: Merkle determinism and order independence -/

/-- C8: the Merkle root over a component map depends only on the
multiset of component values: any reordering of the map (in
particular any key permutation preserving the value multiset, and any
HashMap iteration order) yields a byte-identical root, and on a
non-empty map the computation succeeds.  Holds for every primitive
instance and algorithm because the leaf hashes are sorted before the
tree is built. -/
theorem c8_merkle_order_independence (P : SigPrims) (alg : HashAlgorithm) (sep : Bool)
    (M M2 : ComponentMap) (hperm : (M.map Prod.snd).Perm (M2.map Prod.snd)) :
    compute_root P alg sep M = compute_root P alg sep M2
      ∧ (M ≠ [] → ∃ leaves root, compute_root P alg sep M = .ok (leaves, root)) := by
  have hmap : M.map (fun p => hash_leaf P alg sep p.2)
      = (M.map Prod.snd).map (hash_leaf P alg sep) := by
    simp [List.map_map, Function.comp]
  have hmap2 : M2.map (fun p => hash_leaf P alg sep p.2)
      = (M2.map Prod.snd).map (hash_leaf P alg sep) := by
    simp [List.map_map, Function.comp]
  have hleafperm : (M.map (fun p => hash_leaf P alg sep p.2)).Perm
      (M2.map (fun p => hash_leaf P alg sep p.2)) := by
    rw [hmap, hmap2]
    exact hperm.map _
  have hsorted : sortBytes (M.map (fun p => hash_leaf P alg sep p.2))
      = sortBytes (M2.map (fun p => hash_leaf P alg sep p.2)) :=
    sortBytes_congr _ _ hleafperm
  constructor
  · simp only [compute_root, hsorted]
  · intro hne
    have hlen : (sortBytes (M.map (fun p => hash_leaf P alg sep p.2))).length
        = M.length := by
      rw [(sortBytes_perm _).length_eq, List.length_map]
    have hnonempty : (sortBytes (M.map (fun p => hash_leaf P alg sep p.2))).isEmpty
        = false := by
      cases hs : sortBytes (M.map (fun p => hash_leaf P alg sep p.2)) with
      | nil =>
        rw [hs] at hlen
        cases M with
        | nil => exact absurd rfl hne
        | cons a l => simp at hlen
      | cons x xs => rfl
    simp only [compute_root, build_tree, hnonempty, Bool.false_eq_true, if_false]
    exact ⟨_, _, rfl⟩

/-- Witness for C8: a concrete key-permuted pair of maps. -/
theorem c8_witness :
    compute_root demoPrims .sha256 true [(ascii "a", [1]), (ascii "b", [2])]
        = compute_root demoPrims .sha256 true [(ascii "x", [2]), (ascii "y", [1])]
      ∧ ([(ascii "a", [1]), (ascii "b", [2])] : ComponentMap) ≠ [] :=
  ⟨(c8_merkle_order_independence demoPrims .sha256 true _ _ (by decide)).1, by decide⟩

/-! ## C3: legacy Merkle version policy gate (code bug) -/

set_option maxRecDepth 40000 in
/-- C3: the claim says a version-1 Merkle tree is rejected under the
default policy with a PolicyViolation during archive verification.
The policy knob and its checker behave as specified in isolation, but
neither `MerkleTree::from_binary` nor `verify_with_config` ever
consults them: the v1 archive below passes verification end to end
(only a stderr warning is printed), so the gate is dead code on this
path. -/
theorem c3_legacy_merkle_gate_not_enforced :
    SecurityConfig.default.reject_legacy_merkle = true
      ∧ SecurityConfig.default.check_merkle_version 1 = .error .policyViolation
      ∧ (SecurityConfig.strict SizeTier.Standard).check_merkle_version 1
          = .error .policyViolation
      ∧ SecurityConfig.permissive.check_merkle_version 1 = .ok ()
      ∧ SecurityConfig.default.check_signature_version 1 = .error .policyViolation
      ∧ SecurityConfig.permissive.check_signature_version 1 = .ok ()
      ∧ (v1Archive.by_name HASHES_FILE).map (fun d => d.getD 4 0) = some 1
      ∧ (MerkleTree.from_binary ((v1Archive.by_name HASHES_FILE).getD [])).toOption.map
          (fun t => t.use_domain_separators) = some false
      ∧ (verify_with_config demoPrims v1Archive SecurityConfig.default 0).isOk = true := by
  refine ⟨rfl, by decide, by decide, by decide, by decide, by decide, by decide, by decide, ?_⟩
  decide

/-! ## C4: resource ceilings at verification (file count unenforced) -/

set_option maxRecDepth 40000 in
/-- C4: the archive-size, per-entry-size and decompression-ratio
ceilings are enforced as claimed (including the stored-entry zero
divisor fallback), but the 1000-entry count ceiling is not:
`check_file_count` exists with the specified behaviour and is never
called by `verify_with_config`, which accepts the 1001-entry archive
below. -/
theorem c4_file_count_not_enforced :
    junkArchive.entries.length = 1001
      ∧ SecurityConfig.default.max_file_count = 1000
      ∧ SecurityConfig.default.check_file_count 1001 = .error .sizeExceeded
      ∧ SecurityConfig.default.check_size (5 * 1024 * 1024 + 1) = .error .fileSizeExceeded
      ∧ SecurityConfig.default.check_file_size (1024 * 1024 + 1) = .error .fileSizeExceeded
      ∧ SecurityConfig.default.check_decompression 1024 (1024 * 1001)
          = .error .fileSizeExceeded
      ∧ SecurityConfig.default.check_decompression 0 (10 * 1024 * 1024)
          = .error .fileSizeExceeded
      ∧ SecurityConfig.default.check_decompression 0 (500 * 1024) = .ok ()
      ∧ (verify_with_config demoPrims junkArchive SecurityConfig.default 0).isOk = true := by
  refine ⟨by decide, rfl, by decide, by decide, by decide, by decide, by decide, by decide, ?_⟩
  decide

/-! ## C10: timestamp-provider fallback and signature shape -/

/-- C10: `sign_ed25519_with_timestamp` is total; a provider failure is
absorbed by falling back to the local current time with no authority
and no proof; and every signature produced by the Ed25519 and
secp256k1 signing paths carries version 2 and the hex encoding of the
root bytes it was given. -/
theorem c10_provider_fallback (P : SigPrims) (sk root id name : Bytes)
    (scope : SignatureScope) (now : Int) (provider : TimestampProvider) (e : Unit)
    (hfail : provider root = .error e) :
    (sign_ed25519_with_timestamp P sk root id name scope (some provider) now).timestamp
        = { time := now, authority := none, proof := none }
      ∧ (∀ prov2 : Option TimestampProvider,
          (sign_ed25519_with_timestamp P sk root id name scope prov2 now).version = 2
            ∧ (sign_ed25519_with_timestamp P sk root id name scope prov2 now).root_hash
                = hexEncode root)
      ∧ (sign_secp256k1 P sk root id name scope now).version = 2
      ∧ (sign_secp256k1 P sk root id name scope now).root_hash = hexEncode root := by
  refine ⟨?_, ?_, rfl, rfl⟩
  · simp [sign_ed25519_with_timestamp, hfail]
  · intro prov2
    cases prov2 with
    | none => exact ⟨rfl, rfl⟩
    | some p =>
      cases hp : p root with
      | error err => exact ⟨rfl, rfl⟩
      | ok tok => exact ⟨rfl, rfl⟩

/-- Witness for C10 with a concretely failing provider. -/
theorem c10_witness :
    (sign_ed25519_with_timestamp demoPrims exampleSk (ascii "r") (ascii "s") (ascii "S")
        .Full (some (fun _ => .error ())) 9).timestamp
      = { time := 9, authority := none, proof := none } :=
  (c10_provider_fallback demoPrims exampleSk (ascii "r") (ascii "s") (ascii "S")
    .Full 9 (fun _ => .error ()) () rfl).1

/-! ## C5: revocation temporality -/

/-- C5: `is_revoked_at` returns exactly the first entry whose signer
id matches and whose revocation time is at or before the check time
(so an entry revoked exactly at t is visible at t but at no earlier
time), and batch verification short-circuits a signature to Revoked —
regardless of the supplied keys or the signature bytes — precisely
when the manager holds such an entry for the signature's own
timestamp, while a signature timestamped strictly before every
revocation of its signer proceeds to key lookup and can still be
Valid. -/
theorem c5_revocation_temporality :
    (∀ (l : RevocationList) (id : Bytes) (t : Int) (e : RevocationEntry),
        l.is_revoked_at id t = some e →
          e.signer_id = id ∧ e.revoked_at ≤ t
            ∧ ∃ as bs, l.revoked_keys = as ++ e :: bs
                ∧ ∀ e2 ∈ as, ¬ (e2.signer_id = id ∧ e2.revoked_at ≤ t))
    ∧ (∀ (l : RevocationList) (id : Bytes) (t : Int),
        l.is_revoked_at id t = none
          ↔ ∀ e ∈ l.revoked_keys, e.signer_id = id → t < e.revoked_at)
    ∧ (∀ (m : RevocationManager) (id : Bytes) (t : Int),
        m.is_revoked_at id t = none
          ↔ (∀ l ∈ m.lists, l.is_revoked_at id t = none)
            ∧ ∀ sl ∈ m.signed_lists, sl.is_revoked_at id t = none)
    ∧ (∀ (P : SigPrims) (sig : DocumentSignature) (root : Bytes)
        (edKeys secpKeys : List (Bytes × Bytes)) (m : RevocationManager)
        (e : RevocationEntry),
        m.is_revoked_at sig.signer.id sig.timestamp.time = some e →
          verifyOneSignature P sig root edKeys secpKeys (some m)
            = .Revoked sig.signer.name e.revoked_at)
    ∧ (∀ (P : SigPrims) (sig : DocumentSignature) (root : Bytes)
        (edKeys secpKeys : List (Bytes × Bytes)) (m : RevocationManager) (k : Bytes),
        m.is_revoked_at sig.signer.id sig.timestamp.time = none →
          sig.algorithm = .Ed25519 →
          lookupKey edKeys sig.signer.id = some k →
          verify_ed25519 P sig root k = .ok true →
          verifyOneSignature P sig root edKeys secpKeys (some m)
            = .Valid sig.signer.name sig.timestamp.time) := by
  refine ⟨?_, ?_, ?_, ?_, ?_⟩
  · intro l id t e h
    unfold RevocationList.is_revoked_at at h
    rw [List.find?_eq_some] at h
    obtain ⟨hp, as, bs, hsplit, hfirst⟩ := h
    simp only [Bool.and_eq_true, beq_iff_eq, decide_eq_true_eq] at hp
    refine ⟨hp.1, hp.2, as, bs, hsplit, ?_⟩
    intro e2 he2 hcontra
    have := hfirst e2 he2
    simp only [Bool.not_eq_eq_eq_not, Bool.not_true, Bool.and_eq_false_iff,
      beq_eq_false_iff_ne, decide_eq_false_iff_not] at this
    rcases this with h1 | h1
    · exact h1 hcontra.1
    · exact h1 hcontra.2
  · intro l id t
    unfold RevocationList.is_revoked_at
    rw [List.find?_eq_none]
    constructor
    · intro h e he hid
      have := h e he
      simp only [Bool.and_eq_true, beq_iff_eq, decide_eq_true_eq, not_and] at this
      exact Int.not_le.mp (this hid)
    · intro h e he
      simp only [Bool.and_eq_true, beq_iff_eq, decide_eq_true_eq, not_and]
      intro hid
      exact Int.not_le.mpr (h e he hid)
  · intro m id t
    unfold RevocationManager.is_revoked_at
    constructor
    · intro h
      split at h
      · exact Option.noConfusion h
      next hl =>
        rw [List.findSome?_eq_none_iff] at hl h
        exact ⟨hl, h⟩
    · intro ⟨h1, h2⟩
      rw [show m.lists.findSome? (fun l => l.is_revoked_at id t) = none from
        List.findSome?_eq_none_iff.mpr h1]
      exact List.findSome?_eq_none_iff.mpr h2
  · intro P sig root edKeys secpKeys m e h
    simp only [verifyOneSignature, h]
  · intro P sig root edKeys secpKeys m k hrev halg hkey hver
    simp only [verifyOneSignature, hrev, halg, hkey, hver]

/-- Witness for C5: a signer revoked at time 5 is reported at 5 and
not at 4; a time-5 signature by that signer is Revoked without any
key, while the time-4 signature validates under the demo scheme. -/
theorem c5_witness :
    revListX.is_revoked_at (ascii "x") 4 = none
      ∧ revListX.is_revoked_at (ascii "x") 5 = some revEntryX
      ∧ verifyOneSignature demoPrims (sigXAt 5) (ascii "r") [] [] (some mgrX)
          = .Revoked (ascii "X") 5
      ∧ verifyOneSignature demoPrims (sigXAt 4) (ascii "r")
          [(ascii "x", demoPrims.edPub exampleSk)] [] (some mgrX)
          = .Valid (ascii "X") 4 := by
  refine ⟨?_, by decide, ?_, ?_⟩
  · exact (c5_revocation_temporality.2.1 revListX (ascii "x") 4).mpr (by decide)
  · exact c5_revocation_temporality.2.2.2.1 demoPrims (sigXAt 5) (ascii "r") [] [] mgrX
      revEntryX (by decide)
  · exact c5_revocation_temporality.2.2.2.2 demoPrims (sigXAt 4) (ascii "r")
      [(ascii "x", demoPrims.edPub exampleSk)] [] mgrX (demoPrims.edPub exampleSk)
      (by decide) (by decide) (by decide) (by decide)

/-! ## C2: signature v2 binding -/

theorem b64_rt (bs : Bytes) : b64Decode (b64Encode bs) = some bs := rfl

theorem padTo64_length (bs : Bytes) : (padTo64 bs).length = 64 := by
  simp [padTo64]

theorem demoPrims_edComplete : EdComplete demoPrims := by
  intro sk m
  simp [demoPrims, EdComplete]

theorem demoPrims_sigLen64 : ∀ sk m : Bytes, (demoPrims.edSign sk m).length = 64 := by
  intro sk m
  simp [demoPrims, padTo64_length]

/-- C2 counterexample: the claim's "verifies iff none of root,
timestamp.time, signer.id or scope was changed" fails: the scopes
Sections(["b","c"]) and Sections(["b,c"]) are distinct but share the
canonical string "sections:b,c" (sorted ids joined by commas), so a
signature whose scope is mutated from the first to the second still
verifies under the correct key. -/
theorem c2_counterexample :
    sigBCmut.scope ≠ sigBC.scope
      ∧ sigBCmut.timestamp = sigBC.timestamp
      ∧ sigBCmut.signer = sigBC.signer
      ∧ sigBCmut.root_hash = sigBC.root_hash
      ∧ scopeCanonical scopeBCcomma = scopeCanonical scopeBC
      ∧ verify_ed25519 demoPrims sigBCmut (ascii "r") (demoPrims.edPub exampleSk)
          = .ok true := by
  refine ⟨by decide, rfl, rfl, rfl, by decide, by decide⟩

/-- C2 (amended): a version-2 Ed25519 signature verifies iff its
stored base64 signature decodes to 64 bytes that validate, under the
given key, over the payload reconstructed from the signature's own
stored timestamp.time, signer.id and scope — i.e. binding is exactly
at the level of the canonical payload
SHA-256("TDF-SIGNATURE-V2:" || root || rfc3339(t) || signer_id ||
scope_canonical); consequently any joint mutation of timestamp,
signer id and scope that preserves that payload preimage (such as a
scope mutation with an unchanged canonical string) still verifies
under the correct key. -/
theorem c2_payload_binding (P : SigPrims) (hC : EdComplete P)
    (hLen : ∀ sk m : Bytes, (P.edSign sk m).length = 64) :
    (∀ (sig : DocumentSignature) (root key : Bytes),
        sig.algorithm = .Ed25519 → 2 ≤ sig.version →
          (verify_ed25519 P sig root key = .ok true
            ↔ ∃ s, b64Decode sig.signature = some s ∧ s.length = 64
                ∧ P.edVerify key
                    (compute_signing_payload P root sig.timestamp.time sig.signer.id
                      sig.scope) s = true))
    ∧ (∀ (sk root id name : Bytes) (scope : SignatureScope) (now t2 : Int) (id2 : Bytes)
        (scope2 : SignatureScope),
        signingPreimage root t2 id2 scope2 = signingPreimage root now id scope →
          (let sig := sign_ed25519 P sk root id name scope now
           verify_ed25519 P
             { sig with
                 timestamp := { sig.timestamp with time := t2 }
                 signer := { sig.signer with id := id2 }
                 scope := scope2 } root (P.edPub sk) = .ok true)) := by
  constructor
  · intro sig root key halg hver
    have hv : SIGNATURE_VERSION_CURRENT ≤ sig.version := hver
    simp only [verify_ed25519, halg, ne_eq, not_true_eq_false, Bool.false_eq_true, if_false,
      reduceIte]
    cases hdec : b64Decode sig.signature with
    | none =>
      dsimp only
      constructor
      · intro h; exact Except.noConfusion h
      · rintro ⟨s, hs, -, -⟩
        exact Option.noConfusion hs
    | some s =>
      dsimp only
      rw [if_pos (show sig.version ≥ SIGNATURE_VERSION_CURRENT from hv)]
      by_cases hlen : s.length = 64
      · rw [if_neg (show ¬ ¬ s.length = 64 from by omega)]
        by_cases hed : P.edVerify key
            (compute_signing_payload P root sig.timestamp.time sig.signer.id sig.scope) s
            = true
        · rw [if_pos hed]
          exact ⟨fun _ => ⟨s, rfl, hlen, hed⟩, fun _ => rfl⟩
        · rw [if_neg hed]
          constructor
          · intro h; exact Except.noConfusion h
          · rintro ⟨s2, hs2, -, hv2⟩
            obtain rfl : s = s2 := Option.some.inj hs2
            exact absurd hv2 hed
      · rw [if_pos (show ¬ s.length = 64 from hlen)]
        constructor
        · intro h; exact Except.noConfusion h
        · rintro ⟨s2, hs2, hl2, -⟩
          obtain rfl : s = s2 := Option.some.inj hs2
          exact absurd hl2 hlen
  · intro sk root id name scope now t2 id2 scope2 heq
    simp only [sign_ed25519, sign_ed25519_with_timestamp, verify_ed25519]
    simp only [ne_eq, not_true_eq_false, Bool.false_eq_true, if_false, reduceIte, b64_rt]
    simp only [hLen, if_neg (show ¬ (64 : Nat) ≠ 64 from by omega)]
    rw [if_pos (le_refl SIGNATURE_VERSION_CURRENT)]
    simp only [compute_signing_payload, heq]
    rw [if_neg (show ¬ ¬ True from by simp), if_pos (hC sk _)]

/-- Witness for C2 (amended), applying the payload-level binding at
the comma-collision scopes under the demo scheme. -/
theorem c2_witness :
    verify_ed25519 demoPrims
      { sign_ed25519 demoPrims exampleSk (ascii "r") (ascii "s") (ascii "S") scopeBC 0 with
          timestamp := { (sign_ed25519 demoPrims exampleSk (ascii "r") (ascii "s")
            (ascii "S") scopeBC 0).timestamp with time := 0 }
          signer := { (sign_ed25519 demoPrims exampleSk (ascii "r") (ascii "s")
            (ascii "S") scopeBC 0).signer with id := ascii "s" }
          scope := scopeBCcomma } (ascii "r") (demoPrims.edPub exampleSk) = .ok true :=
  (c2_payload_binding demoPrims demoPrims_edComplete demoPrims_sigLen64).2
    exampleSk (ascii "r") (ascii "s") (ascii "S") scopeBC 0 0 (ascii "s") scopeBCcomma
    (by decide)

/-! ## C6: signed revocation list authority binding -/

/-- The canonical payload preimage never covers the signature field. -/
theorem canonicalPayloadPreimage_signature (l : SignedRevocationList) (x : Bytes) :
    canonicalPayloadPreimage { l with signature := x } = canonicalPayloadPreimage l := by
  cases l
  rfl

set_option maxRecDepth 40000 in
/-- C6 counterexample: the claim's "mutating any entry's signer_id ...
makes verify fail" is false.  The canonical payload concatenates
variable-length signer ids against fixed-width time/reason fields with
single-byte separators, so ids that embed the separator pattern can
trade bytes across entry boundaries: mutating `entryE`'s signer id
"a⟨tail⟩b" to "b⟨tail⟩a" (with companion entry "a⟨tail⟩b⟨tail⟩a")
re-sorts to the identical byte stream, and the original signature
still verifies. -/
theorem c6_counterexample :
    signedListE.isOk = true
      ∧ entryE2.signer_id ≠ entryE.signer_id
      ∧ entryE2.revoked_at = entryE.revoked_at
      ∧ entryE2.reason = entryE.reason
      ∧ signedListE.toOption.map
          (fun l => signedListMutated == { l with entries := [entryE2, entryF] })
          = some true
      ∧ signedListE.toOption.map
          (fun l => canonicalPayloadPreimage signedListMutated
            == canonicalPayloadPreimage l) = some true
      ∧ signedListMutated.verify demoPrims = .ok true := by
  exact ⟨by decide, by decide, rfl, rfl, by decide, by decide, by decide⟩

/-- C6 (amended): construction fails whenever the authority's stored
hex key differs from the signing key's verifying key; an honestly
constructed list verifies; and verification succeeds exactly when the
embedded authority key parses, the stored base64 signature decodes to
64 bytes, and those bytes validate under the embedded key over the
canonical payload (domain separator, version, authority id and key,
timestamps, entries sorted by signer id).  Mutations of revoked_at or
reason change the canonical stream; signer-id mutations may not
(the counterexample), so tamper evidence holds only up to canonical
payload equality. -/
theorem c6_authority_binding (P : SigPrims) :
    (∀ (entries : List RevocationEntry) (authority : AuthorityInfo) (sk : Bytes)
        (vh : Option Int) (now : Int),
        authority.public_key ≠ hexEncode (P.edPub sk) →
          SignedRevocationList.new P entries authority sk vh now
            = .error .signatureFailure)
    ∧ (∀ (entries : List RevocationEntry) (authority : AuthorityInfo) (sk : Bytes)
        (vh : Option Int) (now : Int) (l : SignedRevocationList),
        EdComplete P → (∀ sk2 m : Bytes, (P.edSign sk2 m).length = 64) →
        (P.edPub sk).length = 32 → (∀ b ∈ P.edPub sk, b < 256) →
        SignedRevocationList.new P entries authority sk vh now = .ok l →
          l.verify P = .ok true)
    ∧ (∀ l : SignedRevocationList,
        l.verify P = .ok true
          ↔ ∃ vk s, l.authority.verifying_key = .ok vk
              ∧ b64Decode l.signature = some s ∧ s.length = 64
              ∧ P.edVerify vk (canonical_payload P l) s = true) := by
  refine ⟨?_, ?_, ?_⟩
  · intro entries authority sk vh now hne
    simp only [SignedRevocationList.new]
    rw [if_pos hne]
  · intro entries authority sk vh now l hC hLen hpklen hpkbytes hnew
    simp only [SignedRevocationList.new] at hnew
    split at hnew
    · exact Except.noConfusion hnew
    next hkey =>
      have hkeyeq : authority.public_key = hexEncode (P.edPub sk) := by
        by_contra hcontra
        exact hkey hcontra
      cases hnew
      simp only [SignedRevocationList.verify, AuthorityInfo.verifying_key, hkeyeq,
        hexDecode_hexEncode (P.edPub sk) hpkbytes]
      rw [if_neg (show ¬ ¬ (P.edPub sk).length = 32 from by omega)]
      simp only [b64_rt]
      rw [if_neg (show ¬ ¬ (P.edSign sk _).length = 64 from by rw [hLen]; omega)]
      simp only [canonical_payload, canonicalPayloadPreimage]
      rw [if_pos (hC sk _)]
  · intro l
    simp only [SignedRevocationList.verify]
    cases hvk : l.authority.verifying_key with
    | error e =>
      dsimp only
      constructor
      · intro h; exact Except.noConfusion h
      · rintro ⟨vk, s, hvk2, -, -, -⟩
        exact Except.noConfusion hvk2
    | ok vk =>
      dsimp only
      cases hdec : b64Decode l.signature with
      | none =>
        dsimp only
        constructor
        · intro h; exact Except.noConfusion h
        · rintro ⟨vk2, s, hvk2, hdec2, -, -⟩
          exact Option.noConfusion hdec2
      | some s =>
        dsimp only
        by_cases hlen : s.length = 64
        · rw [if_neg (show ¬ ¬ s.length = 64 from by omega)]
          by_cases hed : P.edVerify vk (canonical_payload P l) s = true
          · rw [if_pos hed]
            exact ⟨fun _ => ⟨vk, s, rfl, rfl, hlen, hed⟩, fun _ => rfl⟩
          · rw [if_neg hed]
            constructor
            · intro h; exact Except.noConfusion h
            · rintro ⟨vk2, s2, hvk2, hdec2, -, hed2⟩
              obtain rfl : vk = vk2 := by
                cases hvk2; rfl
              obtain rfl : s = s2 := Option.some.inj hdec2
              exact absurd hed2 hed
        · rw [if_pos (show ¬ s.length = 64 from hlen)]
          constructor
          · intro h; exact Except.noConfusion h
          · rintro ⟨vk2, s2, hvk2, hdec2, hlen2, -⟩
            obtain rfl : s = s2 := Option.some.inj hdec2
            exact absurd hlen2 hlen

set_option maxRecDepth 40000 in
/-- Witness for C6 (amended): the honestly signed example list
verifies, via the completeness part of the theorem. -/
theorem c6_witness :
    (signedListE.toOption.getD
        { version := 0, entries := [], authority := exampleAuthority, issued_at := 0
          next_update := none, signature := [] }).verify demoPrims = .ok true :=
  (c6_authority_binding demoPrims).2.1 [entryE, entryF] exampleAuthority exampleSk none 0 _
    demoPrims_edComplete demoPrims_sigLen64 (by decide) (by decide) (by decide)

/-! ## C9: session completion invariant -/

/-- Invariant maintained by `add_signature` from a fresh session: the
signer ids of the collected signatures are distinct and all belong to
the required list (the first two precondition checks). -/
theorem reachable_session_invariant (s : MultiPartySigningSession)
    (h : ReachableSession s) :
    (s.signatures.map (fun g => g.signer.id)).Nodup
      ∧ ∀ id ∈ s.signatures.map (fun g => g.signer.id), id ∈ s.required_signers := by
  induction h with
  | fresh root_hash order required_signers now =>
    exact ⟨List.nodup_nil, by simp [MultiPartySigningSession.new]⟩
  | step s s2 signature hs hadd ih =>
    simp only [MultiPartySigningSession.add_signature] at hadd
    split at hadd
    · exact Except.noConfusion hadd
    next hrequired =>
      split at hadd
      · exact Except.noConfusion hadd
      next hdup =>
        split at hadd
        · exact Except.noConfusion hadd
        next hord =>
          cases hadd
          have hid_mem : signature.signer.id ∈ s.required_signers :=
            List.mem_of_elem_eq_true (not_not.mp hrequired)
          have hid_new : signature.signer.id ∉ s.signatures.map (fun g => g.signer.id) := by
            intro hmem
            apply hdup
            rw [List.any_eq_true]
            obtain ⟨g, hg, hgid⟩ := List.mem_map.mp hmem
            exact ⟨g, hg, by simp [hgid]⟩
          constructor
          · simp only [List.map_append, List.map_cons, List.map_nil]
            rw [List.nodup_append]
            exact ⟨ih.1, List.nodup_singleton _, by
              intro a ha hb
              simp only [List.mem_singleton] at hb
              exact hid_new (hb ▸ ha)⟩
          · intro id hid
            simp only [List.map_append, List.map_cons, List.map_nil,
              List.mem_append, List.mem_singleton] at hid
            rcases hid with hid | hid
            · exact ih.2 id hid
            · exact hid ▸ hid_mem

/-- C9 counterexample: `new` accepts a required-signer list with
duplicates, and then the claimed equivalence fails: after "a" signs in
a session requiring ["a", "a"], the signer-id set equals the
required-signer set while `is_complete` (which compares only lengths)
is false. -/
theorem c9_counterexample :
    ReachableSession ((dupSession.add_signature sigDupA).toOption.getD dupSession)
      ∧ (dupSession.add_signature sigDupA).toOption.map (fun s =>
          (decide (s.signatures.map (fun g => g.signer.id) ⊆ s.required_signers),
           decide (s.required_signers ⊆ s.signatures.map (fun g => g.signer.id)),
           s.is_complete)) = some (true, true, false) := by
  constructor
  · exact ReachableSession.step dupSession _ sigDupA
      (ReachableSession.fresh (ascii "r") .Unordered [ascii "a", ascii "a"] 0)
      (by decide)
  · decide

/-- C9 (amended): for every session reachable from a fresh session by
add-signature operations alone, provided the required-signer list has
no duplicates, the set of signer ids among the signatures equals the
required-signer set iff `is_complete()` holds; this rests on
add_signature rejecting unknown signers and duplicate signers (and,
in Ordered mode, out-of-order signers). -/
theorem c9_completion_invariant (s : MultiPartySigningSession)
    (hreach : ReachableSession s) (hnodup : s.required_signers.Nodup) :
    s.is_complete = true
      ↔ (s.signatures.map (fun g => g.signer.id) ⊆ s.required_signers
          ∧ s.required_signers ⊆ s.signatures.map (fun g => g.signer.id)) := by
  obtain ⟨hids_nodup, hids_sub⟩ := reachable_session_invariant s hreach
  have hsub : s.signatures.map (fun g => g.signer.id) ⊆ s.required_signers := by
    intro a ha
    exact hids_sub a ha
  have hlen_ids : (s.signatures.map (fun g => g.signer.id)).length
      = s.signatures.length := List.length_map _ _
  constructor
  · intro hcomp
    have hlen : s.signatures.length = s.required_signers.length := by
      simpa [MultiPartySigningSession.is_complete] using hcomp
    have hsubperm := List.subperm_of_subset hids_nodup hsub
    have hperm := hsubperm.perm_of_length_le (by omega)
    exact ⟨hsub, hperm.symm.subset⟩
  · intro ⟨h1, h2⟩
    have hsp1 := List.subperm_of_subset hids_nodup h1
    have hsp2 := List.subperm_of_subset hnodup h2
    have hl1 := hsp1.length_le
    have hl2 := hsp2.length_le
    simp only [MultiPartySigningSession.is_complete, beq_iff_eq]
    omega

/-- Witness for C9 (amended) on a duplicate-free session. -/
theorem c9_witness :
    (((MultiPartySigningSession.new (ascii "r") .Unordered [ascii "a"] 0).add_signature
        sigDupA).toOption.getD
          (MultiPartySigningSession.new (ascii "r") .Unordered [ascii "a"] 0)).is_complete
      = true :=
  (c9_completion_invariant _
    (ReachableSession.step (MultiPartySigningSession.new (ascii "r") .Unordered
        [ascii "a"] 0) _ sigDupA
      (ReachableSession.fresh (ascii "r") .Unordered [ascii "a"] 0) (by decide))
    (by decide)).mpr ⟨by decide, by decide⟩

/-! ## C1 supporting lemmas -/

theorem ct_eq_refl (a : Bytes) : ct_eq a a = true := by
  simp [ct_eq]

theorem insertComp_not_mem (m : ComponentMap) (k v : Bytes)
    (h : m.any (fun p => p.1 == k) = false) : insertComp m k v = m ++ [(k, v)] := by
  simp only [insertComp, h, Bool.false_eq_true, if_false, reduceIte]

theorem hash_leaf_len (P : SigPrims) (hP : HashLen32 P) (alg : HashAlgorithm) (sep : Bool)
    (d : Bytes) : (hash_leaf P alg sep d).length = 32 := by
  obtain ⟨h1, h2, h3, h4⟩ := hP
  cases alg <;> simp [hash_leaf, h1, h2, h3, h4]

theorem hash_internal_len (P : SigPrims) (hP : HashLen32 P) (alg : HashAlgorithm) (sep : Bool)
    (l r : Bytes) : (hash_internal P alg sep l r).length = 32 := by
  obtain ⟨h1, h2, h3, h4⟩ := hP
  cases alg <;> simp [hash_internal, h1, h2, h3, h4]

theorem hash_single_len (P : SigPrims) (hP : HashLen32 P) (alg : HashAlgorithm) (sep : Bool)
    (d : Bytes) : (hash_single P alg sep d).length = 32 := by
  obtain ⟨h1, h2, h3, h4⟩ := hP
  cases alg <;> simp [hash_single, h1, h2, h3, h4]

theorem reduceLevel_all32 (P : SigPrims) (hP : HashLen32 P) (alg : HashAlgorithm) (sep : Bool)
    (hs : List Bytes) (h : ∀ x ∈ hs, x.length = 32) :
    ∀ x ∈ reduceLevel P alg sep hs, x.length = 32 := by
  induction hs using reduceLevel.induct P alg sep with
  | case1 => simp [reduceLevel]
  | case2 x =>
    simp only [reduceLevel, List.mem_singleton]
    rintro y rfl
    exact hash_single_len P hP alg sep x
  | case3 x y rest ih =>
    simp only [reduceLevel, List.mem_cons]
    rintro z (rfl | hz)
    · exact hash_internal_len P hP alg sep x y
    · exact ih (fun w hw => h w (by simp [hw])) z hz

theorem reduceLevel_ne_nil (P : SigPrims) (alg : HashAlgorithm) (sep : Bool)
    (hs : List Bytes) (h : hs ≠ []) : reduceLevel P alg sep hs ≠ [] := by
  cases hs with
  | nil => exact absurd rfl h
  | cons x rest =>
    cases rest with
    | nil => simp [reduceLevel]
    | cons y rest2 => simp [reduceLevel]

theorem buildLoop_all32 (P : SigPrims) (hP : HashLen32 P) (alg : HashAlgorithm) (sep : Bool)
    (fuel : Nat) (hs : List Bytes) (h : ∀ x ∈ hs, x.length = 32) :
    ∀ x ∈ buildLoop P alg sep fuel hs, x.length = 32 := by
  induction fuel generalizing hs with
  | zero => exact h
  | succ f ih =>
    simp only [buildLoop]
    split
    · exact h
    · exact ih _ (reduceLevel_all32 P hP alg sep hs h)

theorem buildLoop_ne_nil (P : SigPrims) (alg : HashAlgorithm) (sep : Bool) (fuel : Nat)
    (hs : List Bytes) (h : hs ≠ []) : buildLoop P alg sep fuel hs ≠ [] := by
  induction fuel generalizing hs with
  | zero => exact h
  | succ f ih =>
    simp only [buildLoop]
    split
    · exact h
    · exact ih _ (reduceLevel_ne_nil P alg sep hs h)

/-- What a successful `compute_root` yields: the sorted leaf hashes
and the tree built over them. -/
theorem compute_root_ok_spec (P : SigPrims) (alg : HashAlgorithm) (sep : Bool)
    (c : ComponentMap) (lv : List Bytes) (rt : Bytes)
    (h : compute_root P alg sep c = .ok (lv, rt)) :
    lv = sortBytes (c.map (fun p => hash_leaf P alg sep p.2))
      ∧ rt = (buildLoop P alg sep lv.length lv).headD []
      ∧ lv.length = c.length ∧ lv ≠ [] := by
  simp only [compute_root] at h
  split at h
  · exact Except.noConfusion h
  next root hroot =>
    injection h with hpair
    obtain ⟨hl, hr⟩ := Prod.mk.injEq _ _ _ _ ▸ hpair
    simp only [build_tree] at hroot
    split at hroot
    · exact Except.noConfusion hroot
    next hne =>
      injection hroot with hrootv
      subst hl
      subst hr
      refine ⟨rfl, hrootv.symm, ?_, ?_⟩
      · rw [(sortBytes_perm _).length_eq, List.length_map]
      · intro hempty
        rw [hempty] at hne
        exact hne rfl

theorem compute_root_all32 (P : SigPrims) (hP : HashLen32 P) (alg : HashAlgorithm)
    (sep : Bool) (c : ComponentMap) (lv : List Bytes) (rt : Bytes)
    (h : compute_root P alg sep c = .ok (lv, rt)) :
    (∀ x ∈ lv, x.length = 32) ∧ rt.length = 32 := by
  obtain ⟨hlv, hrt, hlen, hne⟩ := compute_root_ok_spec P alg sep c lv rt h
  have hall : ∀ x ∈ lv, x.length = 32 := by
    intro x hx
    rw [hlv] at hx
    have hx2 := (sortBytes_perm _).subset hx
    obtain ⟨p, hp, rfl⟩ := List.mem_map.mp hx2
    exact hash_leaf_len P hP alg sep p.2
  refine ⟨hall, ?_⟩
  have hbl := buildLoop_ne_nil P alg sep lv.length lv hne
  have hbl32 := buildLoop_all32 P hP alg sep lv.length lv hall
  rw [hrt]
  cases hb : buildLoop P alg sep lv.length lv with
  | nil => exact absurd hb hbl
  | cons x xs =>
    simp only [List.headD_cons]
    exact hbl32 x (hb ▸ List.mem_cons_self x xs)

theorem bytes_beq_false_of_head (x y : Nat) (xs ys : Bytes) (h : x ≠ y) :
    ((x :: xs : Bytes) == (y :: ys)) = false := by
  rw [beq_eq_false_iff_ne]
  intro hc
  injection hc with h1 _
  exact h h1

theorem assetFullPath_head (path : Bytes) : ∃ t, assetFullPath path = 97 :: t := by
  unfold assetFullPath
  split
  next h =>
    rw [List.isPrefixOf_iff_prefix] at h
    obtain ⟨t, ht⟩ := h
    exact ⟨_, ht.symm.trans rfl⟩
  next =>
    split
    next h =>
      rw [List.isPrefixOf_iff_prefix] at h
      obtain ⟨t, ht⟩ := h
      exact ⟨_, ht.symm.trans rfl⟩
    next =>
      split
      next => exact ⟨_, rfl⟩
      next =>
        split
        next => exact ⟨_, rfl⟩
        next => exact ⟨_, rfl⟩

/-- Every asset's full archive path lies under "assets/". -/
theorem assetFullPath_under_assets (path : Bytes) :
    (ascii "assets/").isPrefixOf (assetFullPath path) = true := by
  unfold assetFullPath
  split
  next h =>
    rw [List.isPrefixOf_iff_prefix] at h ⊢
    exact List.IsPrefix.trans ⟨ascii "images/", rfl⟩ h
  next =>
    split
    next h =>
      rw [List.isPrefixOf_iff_prefix] at h ⊢
      exact List.IsPrefix.trans ⟨ascii "fonts/", rfl⟩ h
    next =>
      split
      next =>
        rw [List.isPrefixOf_iff_prefix]
        exact ⟨ascii "images/" ++ path, rfl⟩
      next =>
        split
        next =>
          rw [List.isPrefixOf_iff_prefix]
          exact ⟨ascii "fonts/" ++ path, rfl⟩
        next =>
          rw [List.isPrefixOf_iff_prefix]
          exact ⟨path, rfl⟩

theorem asset_name_beq_false (X : Bytes) (hX : ∀ t : Bytes, ((97 :: t : Bytes) == X) = false)
    (path : Bytes) : (assetFullPath path == X) = false := by
  obtain ⟨t, ht⟩ := assetFullPath_head path
  rw [ht]
  exact hX t

theorem find?_assets_none (X : Bytes) (hX : ∀ t : Bytes, ((97 :: t : Bytes) == X) = false)
    (assets : List (Bytes × Bytes)) :
    (assets.map (fun p => (assetFullPath p.1, p.2))).find? (fun e => e.1 == X) = none := by
  rw [List.find?_eq_none]
  intro e he hc
  obtain ⟨p, hp, rfl⟩ := List.mem_map.mp he
  rw [show ((assetFullPath p.1, p.2).1 == X) = (assetFullPath p.1 == X) from rfl,
    asset_name_beq_false X hX] at hc
  exact Bool.false_ne_true hc

theorem by_name_none_of_find? (ar : ZipArchive) (name : Bytes)
    (h : ar.entries.find? (fun e => e.1 == name) = none) : ar.by_name name = none := by
  unfold ZipArchive.by_name
  rw [h]

theorem by_name_built_manifest (fs : Nat) (mb cb sb : Bytes) (lb db : Option Bytes)
    (hb gb : Bytes) (rv : Option Bytes) (assets : List (Bytes × Bytes)) :
    (ZipArchive.mk fs (builtEntries mb cb sb lb db hb gb rv assets)).by_name MANIFEST_FILE
      = some mb := rfl

theorem by_name_built_content (fs : Nat) (mb cb sb : Bytes) (lb db : Option Bytes)
    (hb gb : Bytes) (rv : Option Bytes) (assets : List (Bytes × Bytes)) :
    (ZipArchive.mk fs (builtEntries mb cb sb lb db hb gb rv assets)).by_name CONTENT_FILE
      = some cb := rfl

theorem by_name_built_styles (fs : Nat) (mb cb sb : Bytes) (lb db : Option Bytes)
    (hb gb : Bytes) (rv : Option Bytes) (assets : List (Bytes × Bytes)) :
    (ZipArchive.mk fs (builtEntries mb cb sb lb db hb gb rv assets)).by_name STYLES_FILE
      = some sb := rfl

theorem by_name_built_layout (fs : Nat) (mb cb sb : Bytes) (lb db : Option Bytes)
    (hb gb : Bytes) (rv : Option Bytes) (assets : List (Bytes × Bytes)) :
    (ZipArchive.mk fs (builtEntries mb cb sb lb db hb gb rv assets)).by_name LAYOUT_FILE
      = lb := by
  cases lb with
  | some l => rfl
  | none =>
    cases db with
    | some d =>
      cases rv with
      | some r =>
        refine by_name_none_of_find? _ _ ?_
        show (assets.map (fun p => (assetFullPath p.1, p.2))).find?
          (fun e => e.1 == LAYOUT_FILE) = none
        exact find?_assets_none LAYOUT_FILE (fun t => rfl) assets
      | none =>
        refine by_name_none_of_find? _ _ ?_
        show (assets.map (fun p => (assetFullPath p.1, p.2))).find?
          (fun e => e.1 == LAYOUT_FILE) = none
        exact find?_assets_none LAYOUT_FILE (fun t => rfl) assets
    | none =>
      cases rv with
      | some r =>
        refine by_name_none_of_find? _ _ ?_
        show (assets.map (fun p => (assetFullPath p.1, p.2))).find?
          (fun e => e.1 == LAYOUT_FILE) = none
        exact find?_assets_none LAYOUT_FILE (fun t => rfl) assets
      | none =>
        refine by_name_none_of_find? _ _ ?_
        show (assets.map (fun p => (assetFullPath p.1, p.2))).find?
          (fun e => e.1 == LAYOUT_FILE) = none
        exact find?_assets_none LAYOUT_FILE (fun t => rfl) assets

theorem by_name_built_data (fs : Nat) (mb cb sb : Bytes) (lb db : Option Bytes)
    (hb gb : Bytes) (rv : Option Bytes) (assets : List (Bytes × Bytes)) :
    (ZipArchive.mk fs (builtEntries mb cb sb lb db hb gb rv assets)).by_name DATA_FILE
      = db := by
  cases lb with
  | some l =>
    cases db with
    | some d => rfl
    | none =>
      cases rv with
      | some r =>
        refine by_name_none_of_find? _ _ ?_
        show (assets.map (fun p => (assetFullPath p.1, p.2))).find?
          (fun e => e.1 == DATA_FILE) = none
        exact find?_assets_none DATA_FILE (fun t => rfl) assets
      | none =>
        refine by_name_none_of_find? _ _ ?_
        show (assets.map (fun p => (assetFullPath p.1, p.2))).find?
          (fun e => e.1 == DATA_FILE) = none
        exact find?_assets_none DATA_FILE (fun t => rfl) assets
  | none =>
    cases db with
    | some d => rfl
    | none =>
      cases rv with
      | some r =>
        refine by_name_none_of_find? _ _ ?_
        show (assets.map (fun p => (assetFullPath p.1, p.2))).find?
          (fun e => e.1 == DATA_FILE) = none
        exact find?_assets_none DATA_FILE (fun t => rfl) assets
      | none =>
        refine by_name_none_of_find? _ _ ?_
        show (assets.map (fun p => (assetFullPath p.1, p.2))).find?
          (fun e => e.1 == DATA_FILE) = none
        exact find?_assets_none DATA_FILE (fun t => rfl) assets

theorem by_name_built_hashes (fs : Nat) (mb cb sb : Bytes) (lb db : Option Bytes)
    (hb gb : Bytes) (rv : Option Bytes) (assets : List (Bytes × Bytes)) :
    (ZipArchive.mk fs (builtEntries mb cb sb lb db hb gb rv assets)).by_name HASHES_FILE
      = some hb := by
  cases lb <;> cases db <;> rfl

theorem by_name_built_signatures (fs : Nat) (mb cb sb : Bytes) (lb db : Option Bytes)
    (hb gb : Bytes) (rv : Option Bytes) (assets : List (Bytes × Bytes)) :
    (ZipArchive.mk fs (builtEntries mb cb sb lb db hb gb rv assets)).by_name SIGNATURES_FILE
      = some gb := by
  cases lb <;> cases db <;> rfl

theorem by_name_built_revocation (fs : Nat) (mb cb sb : Bytes) (lb db : Option Bytes)
    (hb gb : Bytes) (rv : Option Bytes) (assets : List (Bytes × Bytes)) :
    (ZipArchive.mk fs (builtEntries mb cb sb lb db hb gb rv assets)).by_name REVOCATION_FILE
      = rv := by
  cases rv with
  | some r =>
    cases lb <;> cases db <;> rfl
  | none =>
    cases lb <;> cases db <;>
      (refine by_name_none_of_find? _ _ ?_
       show (assets.map (fun p => (assetFullPath p.1, p.2))).find?
         (fun e => e.1 == REVOCATION_FILE) = none
       exact find?_assets_none REVOCATION_FILE (fun t => rfl) assets)

theorem foldl_insertComp_fresh (f : Bytes × Bytes → Bytes) (l : List (Bytes × Bytes))
    (m : ComponentMap)
    (hfresh : ∀ p ∈ l, m.any (fun q => q.1 == f p) = false)
    (hnd : (l.map f).Nodup) :
    l.foldl (fun acc p => insertComp acc (f p) p.2) m = m ++ l.map (fun p => (f p, p.2)) := by
  induction l generalizing m with
  | nil => simp
  | cons a rest ih =>
    simp only [List.map_cons, List.nodup_cons] at hnd
    obtain ⟨hna, hndr⟩ := hnd
    have hfresh2 : ∀ p ∈ rest, (m ++ [(f a, a.2)]).any (fun q => q.1 == f p) = false := by
      intro p hp
      rw [List.any_append, hfresh p (List.mem_cons_of_mem a hp)]
      simp only [List.any_cons, List.any_nil, Bool.false_or, Bool.or_false]
      rw [show ((f a, a.2).1 == f p) = (f a == f p) from rfl, beq_eq_false_iff_ne]
      intro hc
      exact hna (by rw [hc]; exact List.mem_map_of_mem f hp)
    simp only [List.foldl_cons, List.map_cons]
    rw [insertComp_not_mem m (f a) a.2 (hfresh a (List.mem_cons_self a rest)),
      ih _ hfresh2 hndr, List.append_assoc]
    rfl

/-- The build-side asset fold appends one "asset:path" component per
asset when the paths are distinct and fresh in the seed map. -/
theorem foldl_assets_build (m4 : ComponentMap) (assets : List (Bytes × Bytes))
    (hnd : (assets.map Prod.fst).Nodup)
    (hfresh : ∀ p ∈ assets, m4.any (fun q => q.1 == ascii "asset:" ++ p.1) = false) :
    assets.foldl (fun m p => insertComp m (ascii "asset:" ++ p.1) p.2) m4
      = m4 ++ assets.map (fun p => (ascii "asset:" ++ p.1, p.2)) := by
  refine foldl_insertComp_fresh (fun p => ascii "asset:" ++ p.1) assets m4 hfresh ?_
  have h3 := hnd.map (List.append_right_injective (ascii "asset:"))
  rw [List.map_map] at h3
  exact h3

/-- The verify-side fold over the written asset entries appends one
"asset:full_path" component per asset. -/
theorem foldl_assets_mapped (m4 : ComponentMap) (assets : List (Bytes × Bytes))
    (hnd : (assets.map (fun p => assetFullPath p.1)).Nodup)
    (hfresh : ∀ p ∈ assets,
      m4.any (fun q => q.1 == ascii "asset:" ++ assetFullPath p.1) = false) :
    (assets.map (fun p => (assetFullPath p.1, p.2))).foldl (fun m e =>
        if (ascii "assets/").isPrefixOf e.1 then insertComp m (ascii "asset:" ++ e.1) e.2
        else m) m4
      = m4 ++ assets.map (fun p => (ascii "asset:" ++ assetFullPath p.1, p.2)) := by
  have hext : ∀ m : ComponentMap,
      ∀ e ∈ assets.map (fun p => ((assetFullPath p.1, p.2) : Bytes × Bytes)),
      (if (ascii "assets/").isPrefixOf e.1 then insertComp m (ascii "asset:" ++ e.1) e.2
       else m)
        = insertComp m (ascii "asset:" ++ e.1) e.2 := by
    intro m e he
    obtain ⟨p, hp, rfl⟩ := List.mem_map.mp he
    simp [assetFullPath_under_assets]
  rw [List.foldl_ext
    (fun (m : ComponentMap) (e : Bytes × Bytes) => if (ascii "assets/").isPrefixOf e.1 then
        insertComp m (ascii "asset:" ++ e.1) e.2
      else m)
    (fun (m : ComponentMap) (e : Bytes × Bytes) =>
      insertComp m (ascii "asset:" ++ e.1) e.2) m4 hext]
  have hfresh2 : ∀ e ∈ assets.map (fun p => ((assetFullPath p.1, p.2) : Bytes × Bytes)),
      m4.any (fun q => q.1 == ascii "asset:" ++ e.1) = false := by
    intro e he
    obtain ⟨p, hp, rfl⟩ := List.mem_map.mp he
    exact hfresh p hp
  have hnd2 : ((assets.map (fun p => ((assetFullPath p.1, p.2) : Bytes × Bytes))).map
      (fun e => ascii "asset:" ++ e.1)).Nodup := by
    rw [List.map_map]
    have h3 := hnd.map (List.append_right_injective (ascii "asset:"))
    rw [List.map_map] at h3
    exact h3
  rw [foldl_insertComp_fresh (fun e => ascii "asset:" ++ e.1) _ m4 hfresh2 hnd2,
    List.map_map]
  rfl

/-- `from_binary` on a well-formed version-2 cons-layout input. -/
theorem from_binary_cons (tag : Nat) (alg : HashAlgorithm)
    (htag : HashAlgorithm.from_u8 tag = .ok alg)
    (n : Nat) (hn : n ≤ 1000000) (T : Bytes) (hT : T.length = 32 + 32 * n) :
    MerkleTree.from_binary (84 :: 68 :: 70 :: 72 :: 2 :: tag
        :: (n / 2 ^ 24 % 256) :: (n / 2 ^ 16 % 256) :: (n / 2 ^ 8 % 256) :: (n % 256) :: T)
      = .ok { algorithm := alg, root_hash := T.take 32,
              leaf_hashes := takeChunks32 n (T.drop 32), use_domain_separators := true } := by
  have hcnt : declaredLeafCount (84 :: 68 :: 70 :: 72 :: 2 :: tag
      :: (n / 2 ^ 24 % 256) :: (n / 2 ^ 16 % 256) :: (n / 2 ^ 8 % 256) :: (n % 256) :: T)
      = n := by
    show n / 2 ^ 24 % 256 * 2 ^ 24 + n / 2 ^ 16 % 256 * 2 ^ 16 + n / 2 ^ 8 % 256 * 2 ^ 8
      + n % 256 = n
    omega
  unfold MerkleTree.from_binary
  rw [if_neg (by simp only [List.length_cons]; omega)]
  rw [if_neg (fun hc => hc rfl)]
  rw [if_neg (by simp only [List.length_cons]; omega)]
  rw [show (84 :: 68 :: 70 :: 72 :: 2 :: tag
      :: (n / 2 ^ 24 % 256) :: (n / 2 ^ 16 % 256) :: (n / 2 ^ 8 % 256) :: (n % 256) :: T).getD
        4 0 = 2 from rfl]
  dsimp only
  rw [if_neg (show ¬ (2 = MERKLE_VERSION_LEGACY) from by decide),
    if_pos (show 2 = MERKLE_VERSION from by decide)]
  dsimp only
  rw [show (84 :: 68 :: 70 :: 72 :: 2 :: tag
      :: (n / 2 ^ 24 % 256) :: (n / 2 ^ 16 % 256) :: (n / 2 ^ 8 % 256) :: (n % 256) :: T).getD
        5 0 = tag from rfl]
  rw [htag]
  dsimp only
  rw [hcnt]
  rw [if_neg (by rw [show MAX_LEAF_COUNT = 1000000 from rfl]; omega)]
  rw [show checked_mul n 32 = some (n * 32) from by
    simp only [checked_mul]; rw [if_pos (show n * 32 < 2 ^ 64 by omega)]]
  dsimp only
  rw [show checked_add 10 32 = some 42 from rfl]
  dsimp only
  rw [show checked_add 42 (n * 32) = some (42 + n * 32) from by
    simp only [checked_add]; rw [if_pos (show 42 + n * 32 < 2 ^ 64 by omega)]]
  dsimp only
  rw [if_neg (show ¬ (84 :: 68 :: 70 :: 72 :: 2 :: tag
      :: (n / 2 ^ 24 % 256) :: (n / 2 ^ 16 % 256) :: (n / 2 ^ 8 % 256) :: (n % 256) :: T).length
        < 42 + n * 32 from by simp only [List.length_cons]; omega)]
  rfl

theorem foldr_append_len (l : List Bytes) (h : ∀ x ∈ l, x.length = 32) :
    (l.foldr (fun h acc => h ++ acc) []).length = 32 * l.length := by
  induction l with
  | nil => rfl
  | cons x rest ih =>
    simp only [List.foldr_cons, List.length_append, List.length_cons]
    rw [h x (List.mem_cons_self x rest), ih (fun y hy => h y (List.mem_cons_of_mem x hy))]
    ring

theorem takeChunks32_flat (l : List Bytes) (h : ∀ x ∈ l, x.length = 32) :
    takeChunks32 l.length (l.foldr (fun h acc => h ++ acc) []) = l := by
  induction l with
  | nil => rfl
  | cons x rest ih =>
    simp only [List.length_cons, List.foldr_cons, takeChunks32]
    rw [List.take_left' (h x (List.mem_cons_self x rest)),
      List.drop_left' (h x (List.mem_cons_self x rest)),
      ih (fun y hy => h y (List.mem_cons_of_mem x hy))]

theorem from_u8_to_u8 (a : HashAlgorithm) : HashAlgorithm.from_u8 a.to_u8 = .ok a := by
  cases a <;> rfl

theorem from_to_binary (alg : HashAlgorithm) (root : Bytes) (leaves : List Bytes)
    (hroot : root.length = 32) (hleaf : ∀ x ∈ leaves, x.length = 32)
    (hcount : leaves.length ≤ MAX_LEAF_COUNT) (bin : Bytes)
    (h : MerkleTree.to_binary ⟨alg, root, leaves, true⟩ = .ok bin) :
    MerkleTree.from_binary bin = .ok ⟨alg, root, leaves, true⟩ := by
  injection h with hbin
  subst hbin
  have hc' : leaves.length ≤ 1000000 := hcount
  have hm : leaves.length % 2 ^ 32 = leaves.length := Nat.mod_eq_of_lt (by omega)
  have hflat := foldr_append_len leaves hleaf
  have hD : MERKLE_MAGIC ++ [MERKLE_VERSION, alg.to_u8] ++ be32 (leaves.length % 2 ^ 32)
      ++ root ++ leaves.foldr (fun h acc => h ++ acc) []
      = 84 :: 68 :: 70 :: 72 :: 2 :: alg.to_u8
        :: (leaves.length / 2 ^ 24 % 256) :: (leaves.length / 2 ^ 16 % 256)
        :: (leaves.length / 2 ^ 8 % 256) :: (leaves.length % 256)
        :: (root ++ leaves.foldr (fun h acc => h ++ acc) []) := by
    rw [hm]
    rfl
  dsimp only
  rw [hD, from_binary_cons alg.to_u8 alg (from_u8_to_u8 alg) leaves.length hc'
    (root ++ leaves.foldr (fun h acc => h ++ acc) [])
    (by rw [List.length_append, hroot, hflat])]
  rw [List.take_left' hroot, List.drop_left' hroot, takeChunks32_flat leaves hleaf]

theorem verifySeed_fresh (mbh cb sb : Bytes) (lb db : Option Bytes) (X : Bytes) :
    (verifySeed mbh cb sb lb db).any (fun q => q.1 == ascii "asset:" ++ X) = false := by
  cases lb <;> cases db <;> rfl

theorem verifySeed_find_content (mbh cb sb : Bytes) (lb db : Option Bytes) :
    (verifySeed mbh cb sb lb db).find? (fun p => p.1 == ascii "content")
      = some (ascii "content", cb) := by
  cases lb <;> cases db <;> rfl

theorem verifySeed_find_styles (mbh cb sb : Bytes) (lb db : Option Bytes) :
    (verifySeed mbh cb sb lb db).find? (fun p => p.1 == ascii "styles")
      = some (ascii "styles", sb) := by
  cases lb <;> cases db <;> rfl

theorem verifySeed_len_le (mbh cb sb : Bytes) (lb db : Option Bytes) :
    (verifySeed mbh cb sb lb db).length ≤ 5 := by
  cases lb <;> cases db <;> exact of_decide_eq_true rfl

/-- The build-side component map splits into the shared seed plus one
"asset:path" entry per asset, when the asset paths are distinct. -/
theorem buildComponents_split (mb cb sb : Bytes) (lb db : Option Bytes)
    (assets : List (Bytes × Bytes)) (hnd1 : (assets.map Prod.fst).Nodup) :
    buildComponents mb cb sb lb db assets
      = verifySeed mb cb sb lb db ++ assets.map (fun p => (ascii "asset:" ++ p.1, p.2)) := by
  cases lb <;> cases db <;>
    exact foldl_assets_build _ assets hnd1 (fun p hp => rfl)

/-- The verify-side component fold over a built entry list: the
reserved entries are skipped and each asset contributes its
"asset:full_path" component. -/
theorem foldl_builtEntries (mb cb sb : Bytes) (lb db : Option Bytes) (hb gb : Bytes)
    (rv : Option Bytes) (assets : List (Bytes × Bytes)) (m4 : ComponentMap)
    (hnd2 : (assets.map (fun p => assetFullPath p.1)).Nodup)
    (hfresh : ∀ p ∈ assets,
      m4.any (fun q => q.1 == ascii "asset:" ++ assetFullPath p.1) = false) :
    (builtEntries mb cb sb lb db hb gb rv assets).foldl (fun m e =>
        if (ascii "assets/").isPrefixOf e.1 then insertComp m (ascii "asset:" ++ e.1) e.2
        else m) m4
      = m4 ++ assets.map (fun p => (ascii "asset:" ++ assetFullPath p.1, p.2)) := by
  cases lb <;> cases db <;> cases rv <;> exact foldl_assets_mapped m4 assets hnd2 hfresh

/-- `compute_root` depends only on the component values. -/
theorem compute_root_congr (P : SigPrims) (alg : HashAlgorithm) (sep : Bool)
    (c1 c2 : ComponentMap) (h : c1.map Prod.snd = c2.map Prod.snd) :
    compute_root P alg sep c1 = compute_root P alg sep c2 := by
  unfold compute_root
  rw [show c1.map (fun p => hash_leaf P alg sep p.2)
      = (c1.map Prod.snd).map (hash_leaf P alg sep)
      from (List.map_map (hash_leaf P alg sep) Prod.snd c1).symm,
    show c2.map (fun p => hash_leaf P alg sep p.2)
      = (c2.map Prod.snd).map (hash_leaf P alg sep)
      from (List.map_map (hash_leaf P alg sep) Prod.snd c2).symm,
    h]

/-- What a successful build yields: the Merkle root over the document's
component map and the exact entry list written to the archive. -/
theorem build_ok_spec (P : SigPrims) (doc : Document) (assets : List (Bytes × Bytes))
    (rev : Option RevocationList) (cfg : SecurityConfig) (ek sk2 sid sname : Option Bytes)
    (salg : Option SignatureAlgorithm) (tsp : Option TimestampProvider) (now : Int)
    (entries : List (Bytes × Bytes))
    (h : build_with_timestamp P doc assets rev cfg ek sk2 sid sname salg tsp now
      = .ok entries) :
    ∃ lv rt B,
      compute_root P (buildAlgorithm doc.manifest) true
          (buildComponents (encManifest doc.manifest) (encContent doc.content) doc.styles
            (doc.layout.map encLayout) (doc.data.map encJson) assets)
        = .ok (lv, rt)
      ∧ entries = builtEntries
          (encManifest { doc.manifest with
            integrity := { doc.manifest.integrity with root_hash := hexEncode rt } })
          (encContent doc.content) doc.styles (doc.layout.map encLayout)
          (doc.data.map encJson)
          (MERKLE_MAGIC ++ [MERKLE_VERSION, (buildAlgorithm doc.manifest).to_u8]
            ++ be32 (lv.length % 2 ^ 32) ++ rt ++ lv.foldr (fun h acc => h ++ acc) [])
          (encSignatureBlock B) (rev.map encRevocationList) assets := by
  simp only [build_with_timestamp] at h
  split at h
  · exact Except.noConfusion h
  · split at h
    · exact Except.noConfusion h
    next lv rt hcr =>
      split at h
      · exact Except.noConfusion h
      next hbexpr hhb =>
        split at h
        · exact Except.noConfusion h
        next hsz =>
          injection h with hent
          injection hhb with hbe
          subst hbe
          subst hent
          exact ⟨lv, rt, _, hcr, by cases rev <;> rfl⟩

set_option maxHeartbeats 1000000 in
theorem verify_built_ok (P : SigPrims) (hP : HashLen32 P) (man : Manifest)
    (content : DocumentContent) (styles : Bytes) (lay : Option Layout) (dat : Option Bytes)
    (assets : List (Bytes × Bytes)) (rev : Option RevocationList) (B : SignatureBlock)
    (lv : List Bytes) (rt : Bytes) (cfg2 : SecurityConfig) (now2 : Int) (fs : Nat)
    (hroot0 : man.integrity.root_hash = [])
    (hnd1 : (assets.map Prod.fst).Nodup)
    (hnd2 : (assets.map (fun p => assetFullPath p.1)).Nodup)
    (hcount : assets.length + 5 ≤ MAX_LEAF_COUNT)
    (hcr : compute_root P (buildAlgorithm man) true
        (buildComponents (encManifest man) (encContent content) styles
          (lay.map encLayout) (dat.map encJson) assets)
      = .ok (lv, rt))
    (hgates : verifySizeGates cfg2 ⟨fs, builtEntries
        (encManifest { man with
          integrity := { man.integrity with root_hash := hexEncode rt } })
        (encContent content) styles (lay.map encLayout) (dat.map encJson)
        (MERKLE_MAGIC ++ [MERKLE_VERSION, (buildAlgorithm man).to_u8]
          ++ be32 (lv.length % 2 ^ 32) ++ rt ++ lv.foldr (fun h acc => h ++ acc) [])
        (encSignatureBlock B) (rev.map encRevocationList) assets⟩ = .ok ()) :
    ∃ report,
      verify_with_config P ⟨fs, builtEntries
          (encManifest { man with
            integrity := { man.integrity with root_hash := hexEncode rt } })
          (encContent content) styles (lay.map encLayout) (dat.map encJson)
          (MERKLE_MAGIC ++ [MERKLE_VERSION, (buildAlgorithm man).to_u8]
            ++ be32 (lv.length % 2 ^ 32) ++ rt ++ lv.foldr (fun h acc => h ++ acc) [])
          (encSignatureBlock B) (rev.map encRevocationList) assets⟩ cfg2 now2
        = .ok report
      ∧ report.integrity_valid = true
      ∧ report.root_hash = hexEncode rt := by
  obtain ⟨sv, dm, au, cl, rh, halg⟩ := man
  dsimp only at hroot0 hcr hgates ⊢
  subst hroot0
  obtain ⟨hlv32, hrt32⟩ := compute_root_all32 P hP _ true _ lv rt hcr
  obtain ⟨hlveq, hrteq, hlvlen, hlvne⟩ := compute_root_ok_spec P _ true _ lv rt hcr
  have hsplit := buildComponents_split
    (encManifest ⟨sv, dm, au, cl, ⟨[], halg⟩⟩) (encContent content) styles
    (lay.map encLayout) (dat.map encJson) assets hnd1
  have hcnt : lv.length ≤ MAX_LEAF_COUNT := by
    rw [hlvlen, hsplit, List.length_append, List.length_map]
    have hseed := verifySeed_len_le (encManifest ⟨sv, dm, au, cl, ⟨[], halg⟩⟩)
      (encContent content) styles (lay.map encLayout) (dat.map encJson)
    rw [show MAX_LEAF_COUNT = 1000000 from rfl] at hcount ⊢
    omega
  have hvals : (verifySeed (encManifest ⟨sv, dm, au, cl, ⟨[], halg⟩⟩) (encContent content)
        styles (lay.map encLayout) (dat.map encJson)
        ++ assets.map (fun p => (ascii "asset:" ++ assetFullPath p.1, p.2))).map Prod.snd
      = (verifySeed (encManifest ⟨sv, dm, au, cl, ⟨[], halg⟩⟩) (encContent content)
        styles (lay.map encLayout) (dat.map encJson)
        ++ assets.map (fun p => (ascii "asset:" ++ p.1, p.2))).map Prod.snd := by
    simp [List.map_map]
  have hcrv : compute_root P (buildAlgorithm ⟨sv, dm, au, cl, ⟨[], halg⟩⟩) true
      (verifySeed (encManifest ⟨sv, dm, au, cl, ⟨[], halg⟩⟩) (encContent content) styles
        (lay.map encLayout) (dat.map encJson)
        ++ assets.map (fun p => (ascii "asset:" ++ assetFullPath p.1, p.2)))
      = .ok (lv, rt) := by
    rw [compute_root_congr P _ true _ _ hvals, ← hsplit]
    exact hcr
  simp only [verify_with_config]
  rw [hgates]
  dsimp only
  rw [by_name_built_manifest]
  dsimp only
  rw [parseAll_enc decManifest_enc]
  dsimp only
  rw [by_name_built_content]
  dsimp only
  rw [by_name_built_styles]
  dsimp only
  rw [by_name_built_layout, by_name_built_data]
  rw [foldl_builtEntries _ _ _ _ _ _ _ _ assets _ hnd2
    (fun p hp => verifySeed_fresh _ _ _ _ _ (assetFullPath p.1))]
  rw [by_name_built_hashes]
  dsimp only
  rw [from_to_binary (buildAlgorithm ⟨sv, dm, au, cl, ⟨[], halg⟩⟩) rt lv hrt32 hlv32 hcnt
    _ rfl]
  dsimp only
  rw [by_name_built_signatures]
  dsimp only
  rw [parseAll_enc decSignatureBlock_enc]
  dsimp only
  rw [by_name_built_revocation]
  cases rev with
  | some r =>
    rw [show Option.map encRevocationList (some r) = some (encRevocationList r) from rfl]
    dsimp only
    rw [parseAll_enc decRevocationList_enc]
    dsimp only
    simp only [MerkleTree.verify]
    rw [hcrv]
    dsimp only
    rw [ct_eq_refl]
    rw [List.find?_append, verifySeed_find_content]
    dsimp only [Option.or]
    rw [parseAll_enc decContent_enc]
    dsimp only
    rw [List.find?_append, verifySeed_find_styles]
    dsimp only [Option.or]
    exact ⟨_, rfl, rfl, rfl⟩
  | none =>
    rw [show Option.map encRevocationList (none : Option RevocationList)
      = (none : Option Bytes) from rfl]
    dsimp only
    simp only [MerkleTree.verify]
    rw [hcrv]
    dsimp only
    rw [ct_eq_refl]
    rw [List.find?_append, verifySeed_find_content]
    dsimp only [Option.or]
    rw [parseAll_enc decContent_enc]
    dsimp only
    rw [List.find?_append, verifySeed_find_styles]
    dsimp only [Option.or]
    exact ⟨_, rfl, rfl, rfl⟩

theorem demoPrims_hashLen32 : HashLen32 demoPrims :=
  ⟨fun _ _ => rfl, fun _ => rfl, fun _ => rfl, fun _ => rfl⟩

/-- C1: for every document that passes validation and additionally
carries an empty stored root hash, whose asset paths (and their full
archive paths) are distinct, and whose component count fits the leaf
bound, building an archive and verifying it (when the on-disk size
passes the configured gates) yields a report with `integrity_valid =
true` and `root_hash` equal to the hex of the root computed at build
time over the component map with the manifest's root hash empty. -/
theorem c1_archive_round_trip (P : SigPrims) (hP : HashLen32 P) (doc : Document)
    (assets : List (Bytes × Bytes)) (rev : Option RevocationList)
    (cfg cfg2 : SecurityConfig) (ek sk2 sid sname : Option Bytes)
    (salg : Option SignatureAlgorithm) (tsp : Option TimestampProvider)
    (now now2 : Int) (fs : Nat) (entries : List (Bytes × Bytes))
    (hroot0 : doc.manifest.integrity.root_hash = [])
    (hnd1 : (assets.map Prod.fst).Nodup)
    (hnd2 : (assets.map (fun p => assetFullPath p.1)).Nodup)
    (hcount : assets.length + 5 ≤ MAX_LEAF_COUNT)
    (hbuild : build_with_timestamp P doc assets rev cfg ek sk2 sid sname salg tsp now
      = .ok entries)
    (hgates : verifySizeGates cfg2 ⟨fs, entries⟩ = .ok ()) :
    ∃ lv rt report,
      compute_root P (buildAlgorithm doc.manifest) true
          (buildComponents (encManifest doc.manifest) (encContent doc.content) doc.styles
            (doc.layout.map encLayout) (doc.data.map encJson) assets)
        = .ok (lv, rt)
      ∧ verify_with_config P ⟨fs, entries⟩ cfg2 now2 = .ok report
      ∧ report.integrity_valid = true
      ∧ report.root_hash = hexEncode rt := by
  obtain ⟨lv, rt, B, hcr, hent⟩ := build_ok_spec P doc assets rev cfg ek sk2 sid sname salg
    tsp now entries hbuild
  subst hent
  obtain ⟨report, hv, hi, hr⟩ := verify_built_ok P hP doc.manifest doc.content doc.styles
    doc.layout doc.data assets rev B lv rt cfg2 now2 fs hroot0 hnd1 hnd2 hcount hcr hgates
  exact ⟨lv, rt, report, hcr, hv, hi, hr⟩

set_option maxRecDepth 40000 in
/-- C1 witness: the example document round-trips through the archive
pipeline at the demo primitives, with a verified root. -/
theorem c1_witness :
    exampleDoc.manifest.integrity.root_hash = []
    ∧ build_with_timestamp demoPrims exampleDoc [] none SecurityConfig.default none none
        none none none none 0 = .ok ((exampleBuild exampleDoc).toOption.getD [])
    ∧ verifySizeGates SecurityConfig.default
        ⟨1000, (exampleBuild exampleDoc).toOption.getD []⟩ = .ok ()
    ∧ ∃ lv rt report,
        compute_root demoPrims (buildAlgorithm exampleDoc.manifest) true
            (buildComponents (encManifest exampleDoc.manifest)
              (encContent exampleDoc.content) exampleDoc.styles
              (exampleDoc.layout.map encLayout) (exampleDoc.data.map encJson) [])
          = .ok (lv, rt)
        ∧ verify_with_config demoPrims ⟨1000, (exampleBuild exampleDoc).toOption.getD []⟩
            SecurityConfig.default 0 = .ok report
        ∧ report.integrity_valid = true
        ∧ report.root_hash = hexEncode rt :=
  ⟨by decide, by decide, by decide,
    c1_archive_round_trip demoPrims demoPrims_hashLen32 exampleDoc [] none
      SecurityConfig.default SecurityConfig.default none none none none none none 0 0 1000
      ((exampleBuild exampleDoc).toOption.getD []) (by decide) (by decide) (by decide)
      (by decide) (by decide) (by decide)⟩

set_option maxRecDepth 40000 in
/-- C1 counterexample to the unconditional claim: `staleDoc` passes
`Document::validate` but carries a stale non-empty stored root hash;
the build hashes its manifest as serialized (root hash included) while
verification clears the stored root hash before hashing, so the
round-trip report has `integrity_valid = false`. -/
theorem c1_counterexample :
    staleDoc.validate = .ok ()
    ∧ ((exampleBuild staleDoc).toOption.bind (fun entries =>
        (verify_with_config demoPrims ⟨1000, entries⟩ SecurityConfig.default 0).toOption.map
          (fun r => r.integrity_valid))) = some false := by
  decide
